import Mathlib

/-!
# Verification of the reflection-driven test-case synthesis engine

A shallow embedding of `src/test_case_generator` (class_analyzer.py,
value_generators.py, test_generator.py, test_generator_methods.py,
models.py, exceptions.py and the error-path dispatch of
pytest_generator.py), together with theorems settling the frozen claims
about it.

Modelling conventions, used throughout:

* Python runtime values are embedded as `PyVal`; machine floats are
  modelled as rationals (no NaN/inf — the engine only manufactures finite
  floats), and `repr` strings of strings do not model Python's quote
  escaping.  Dictionary keys are modelled by the flat type `PyKey`
  (numbers are stored normalised as rationals because Python dict key
  equality identifies `1`, `1.0` and `True`; an opaque hashable object is
  identified by a numeric identity).  Tuples as dict keys are not
  modelled.
* An exception is identified by the name of its class (a `String`); the
  engine's own timeout exception is the distinguished name
  `"TimeoutException"`.  An invocation of target code either returns a
  value or raises an exception kind; a genuine deadline expiry surfaces
  as a raised `"TimeoutException"` wherever `timeout_handler` is the
  installed SIGALRM handler (exceptions.py).
* Every call of `_generate_value_for_type` made by the generators draws
  the next element of an abstract value stream `gv : Nat → PyVal`
  (threaded by an explicit counter).  Universally quantifying over `gv`
  over-approximates every behaviour of `ValueGenerator`'s random source.
* The `description` strings, `pre/post_state_validation` hooks and the
  `class_type` field of the case records are documentation-only and are
  not modelled.
-/

namespace TestGen

/-- Python dict keys, normalised: Python's dict key equality identifies
numerically equal `int`/`float`/`bool` keys, so all numeric keys are
stored as one rational; an opaque hashable object key is identified by
its identity. -/
inductive PyKey where
  | num (q : Rat)
  | str (s : String)
  | obj (id : Nat)
deriving DecidableEq, Repr

/-- Embedded Python runtime values, as far as the engine inspects them:
scalars, the two ordered collection types, dicts, `None`, and opaque
objects carrying the result of `repr` (`none` when `repr` raises). -/
inductive PyVal where
  | int (n : Int)
  | float (q : Rat)
  | bool (b : Bool)
  | str (s : String)
  | list (xs : List PyVal)
  | tuple (xs : List PyVal)
  | dict (es : List (PyKey × PyVal))
  | none
  | obj (r : Option String)

/-- `isinstance(v, (int, float, str, bool))` (test_generator_methods.py
line 30). -/
def isScalar : PyVal → Bool
  | .int _ | .float _ | .bool _ | .str _ => true
  | _ => false

/-- The numeric value of a scalar under Python `==` (ints, floats and
bools compare numerically across types). -/
def scalarNum : PyVal → Option Rat
  | .int n => some (n : Rat)
  | .float q => some q
  | .bool b => some (if b then 1 else 0)
  | _ => Option.none

/-- Python `==` restricted to the scalar types: numbers compare by
numeric value, strings by content, and a string never equals a number. -/
def pyScalarEq (v1 v2 : PyVal) : Bool :=
  match scalarNum v1, scalarNum v2 with
  | some q1, some q2 => q1 == q2
  | _, _ =>
    match v1, v2 with
    | .str a, .str b => a == b
    | _, _ => false

/-- Python `repr` of a dict key (modelling note: numeric keys print in
their normalised rational form). -/
def keyRepr : PyKey → String
  | .num q => toString q
  | .str s => "'" ++ s ++ "'"
  | .obj id => "<object " ++ toString id ++ ">"

mutual

/-- Python `repr`, propagating failure: `repr` of a container raises iff
`repr` of some component raises. -/
def pyRepr : PyVal → Option String
  | .int n => some (toString n)
  | .float q => some (toString q)
  | .bool b => some (if b then "True" else "False")
  | .str s => some ("'" ++ s ++ "'")
  | .none => some "None"
  | .obj r => r
  | .list xs => (reprElems xs).map (fun rs => "[" ++ String.intercalate ", " rs ++ "]")
  | .tuple xs =>
    (reprElems xs).map (fun rs =>
      match rs with
      | [r] => "(" ++ r ++ ",)"
      | _ => "(" ++ String.intercalate ", " rs ++ ")")
  | .dict es =>
    (reprEntries es).map (fun rs => "\x7b" ++ String.intercalate ", " rs ++ "\x7d")

def reprElems : List PyVal → Option (List String)
  | [] => some []
  | x :: xs =>
    match pyRepr x, reprElems xs with
    | some r, some rs => some (r :: rs)
    | _, _ => Option.none

def reprEntries : List (PyKey × PyVal) → Option (List String)
  | [] => some []
  | (k, v) :: es =>
    match pyRepr v, reprEntries es with
    | some rv, some rs => some ((keyRepr k ++ ": " ++ rv) :: rs)
    | _, _ => Option.none

end

/-- `val2[key]` together with the `key not in val2` test: look a key up
in a dict's entry list. -/
def dictLookup (es : List (PyKey × PyVal)) (k : PyKey) : Option PyVal :=
  (es.find? (fun e => e.1 == k)).map (fun e => e.2)

mutual

/-- The per-position dispatch of `_are_functionally_equivalent`
(test_generator_methods.py lines 28-54).  The source recurses through
singleton lists (`_are_functionally_equivalent([item1], [item2])`);
since the length test on two singletons always passes, that recursion
is exactly the per-element dispatch, inlined here. -/
def equivVal (v1 v2 : PyVal) : Bool :=
  if isScalar v1 && isScalar v2 then pyScalarEq v1 v2
  else
    match v1, v2 with
    | .list xs, .list ys => (xs.length == ys.length) && equivList xs ys
    | .list xs, .tuple ys => (xs.length == ys.length) && equivList xs ys
    | .tuple xs, .list ys => (xs.length == ys.length) && equivList xs ys
    | .tuple xs, .tuple ys => (xs.length == ys.length) && equivList xs ys
    | .dict d1, .dict d2 => (d1.length == d2.length) && equivEntries d1 d2
    | _, _ =>
      match pyRepr v1, pyRepr v2 with
      | some r1, some r2 => r1 == r2
      | _, _ => false

/-- `for item1, item2 in zip(val1, val2): ...` after the length check. -/
def equivList : List PyVal → List PyVal → Bool
  | x :: xs, y :: ys => equivVal x y && equivList xs ys
  | _, _ => true

/-- `for key in val1: if key not in val2 or not equivalent: return False`. -/
def equivEntries : List (PyKey × PyVal) → List (PyKey × PyVal) → Bool
  | [], _ => true
  | (k, v) :: rest, d2 =>
    (match dictLookup d2 k with
     | some w => equivVal v w
     | Option.none => false) && equivEntries rest d2

end

/-- `_are_functionally_equivalent(inputs1, inputs2)`
(test_generator_methods.py lines 20-56): equal length, then the
per-position dispatch on zipped elements. -/
def areFunEquiv (inputs1 inputs2 : List PyVal) : Bool :=
  (inputs1.length == inputs2.length) && equivList inputs1 inputs2

/-! ## The spec's description of structural equivalence (§4.4)

A second definition, written from the spec's words rather than from the
source: "scalars compare by value; ordered collections compare by length
then pairwise recursive equivalence; mappings compare by key-set and
recursive equivalence of values; anything else falls back to comparing a
canonical printable representation, and equivalence is false if that
representation cannot be produced." -/

/-- Every key of `d1` occurs among the keys of `d2`. -/
def keySubset (d1 d2 : List (PyKey × PyVal)) : Bool :=
  (d1.map Prod.fst).all (fun k => decide (k ∈ d2.map Prod.fst))

mutual

/-- Structural equivalence as the spec words it; the mapping clause
compares key-sets (mutual inclusion) instead of the source's
entry-count comparison. -/
def specEquivVal (v1 v2 : PyVal) : Bool :=
  if isScalar v1 && isScalar v2 then pyScalarEq v1 v2
  else
    match v1, v2 with
    | .list xs, .list ys => (xs.length == ys.length) && specEquivList xs ys
    | .list xs, .tuple ys => (xs.length == ys.length) && specEquivList xs ys
    | .tuple xs, .list ys => (xs.length == ys.length) && specEquivList xs ys
    | .tuple xs, .tuple ys => (xs.length == ys.length) && specEquivList xs ys
    | .dict d1, .dict d2 =>
      keySubset d1 d2 && keySubset d2 d1 && specEquivEntries d1 d2
    | _, _ =>
      match pyRepr v1, pyRepr v2 with
      | some r1, some r2 => r1 == r2
      | _, _ => false

def specEquivList : List PyVal → List PyVal → Bool
  | x :: xs, y :: ys => specEquivVal x y && specEquivList xs ys
  | _, _ => true

def specEquivEntries : List (PyKey × PyVal) → List (PyKey × PyVal) → Bool
  | [], _ => true
  | (k, v) :: rest, d2 =>
    (match dictLookup d2 k with
     | some w => specEquivVal v w
     | Option.none => false) && specEquivEntries rest d2

end

/-! ### Well-formedness

Python dicts cannot hold two entries with equal keys; the entry-list
representation can, so the dict-clause comparison of the source and of
the spec agree only on values whose dicts (recursively) have duplicate
free key lists. -/

mutual

/-- All dicts reachable inside the value have duplicate-free keys. -/
def wfVal : PyVal → Bool
  | .list xs => wfList xs
  | .tuple xs => wfList xs
  | .dict es => decide (es.map Prod.fst).Nodup && wfEntries es
  | _ => true

def wfList : List PyVal → Bool
  | [] => true
  | x :: xs => wfVal x && wfList xs

def wfEntries : List (PyKey × PyVal) → Bool
  | [] => true
  | (_, v) :: es => wfVal v && wfEntries es

end

/-! ### Auxiliary lemmas for the refinement proof -/

theorem dictLookup_cons (e : PyKey × PyVal) (es : List (PyKey × PyVal)) (k : PyKey) :
    dictLookup (e :: es) k = if e.1 == k then some e.2 else dictLookup es k := by
  simp only [dictLookup, List.find?]
  by_cases h : e.1 == k <;> simp [h]

theorem dictLookup_sizeOf {es : List (PyKey × PyVal)} {k : PyKey} {w : PyVal}
    (h : dictLookup es k = some w) : sizeOf w < sizeOf es := by
  induction es with
  | nil => simp [dictLookup] at h
  | cons e es ih =>
    rw [dictLookup_cons] at h
    by_cases he : e.1 == k
    · simp [he] at h
      subst h
      cases e
      simp
      omega
    · simp [he] at h
      have := ih h
      simp
      omega

theorem dictLookup_wf {es : List (PyKey × PyVal)} {k : PyKey} {w : PyVal}
    (hwf : wfEntries es = true) (h : dictLookup es k = some w) : wfVal w = true := by
  induction es with
  | nil => simp [dictLookup] at h
  | cons e es ih =>
    rw [dictLookup_cons] at h
    obtain ⟨ke, ve⟩ := e
    rw [wfEntries] at hwf
    simp only [Bool.and_eq_true] at hwf
    by_cases he : ke == k
    · simp [he] at h
      subst h
      exact hwf.1
    · simp [he] at h
      exact ih hwf.2 h

theorem dictLookup_isSome_iff_mem (es : List (PyKey × PyVal)) (k : PyKey) :
    (dictLookup es k).isSome = true ↔ k ∈ es.map Prod.fst := by
  induction es with
  | nil => simp [dictLookup]
  | cons e es ih =>
    rw [dictLookup_cons]
    by_cases he : e.1 == k
    · simp only [he, if_true]
      simp only [beq_iff_eq] at he
      simp [he]
    · simp only [he, if_false]
      simp only [beq_iff_eq] at he
      simp [ih, Ne.symm he]

theorem keySubset_true_iff (d1 d2 : List (PyKey × PyVal)) :
    keySubset d1 d2 = true ↔ ∀ k ∈ d1.map Prod.fst, k ∈ d2.map Prod.fst := by
  simp [keySubset]

/-- If the source's per-key sweep over `d1` succeeds, every key of `d1`
is a key of `d2`. -/
theorem specEquivEntries_keySubset {d1 d2 : List (PyKey × PyVal)}
    (h : specEquivEntries d1 d2 = true) : keySubset d1 d2 = true := by
  rw [keySubset_true_iff]
  induction d1 with
  | nil => simp
  | cons e d1 ih =>
    obtain ⟨k, v⟩ := e
    rw [specEquivEntries] at h
    simp only [Bool.and_eq_true] at h
    intro k' hk'
    simp only [List.map_cons, List.mem_cons] at hk'
    rcases hk' with hk' | hk'
    · subst hk'
      rw [← dictLookup_isSome_iff_mem]
      rcases hlook : dictLookup d2 k' with _ | w
      · rw [hlook] at h
        simp at h
      · simp
    · exact ih h.2 k' hk'

/-- The counting argument: with duplicate-free key lists, entry-count
equality plus one-sided key inclusion is the same as mutual key
inclusion. -/
theorem length_beq_eq_keySubset {d1 d2 : List (PyKey × PyVal)}
    (h1 : (d1.map Prod.fst).Nodup) (h2 : (d2.map Prod.fst).Nodup)
    (hsub : keySubset d1 d2 = true) :
    (d1.length == d2.length) = keySubset d2 d1 := by
  rw [Bool.eq_iff_iff, beq_iff_eq, keySubset_true_iff]
  rw [keySubset_true_iff] at hsub
  have hlen1 : d1.length = (d1.map Prod.fst).length := by simp
  have hlen2 : d2.length = (d2.map Prod.fst).length := by simp
  have hfsub : (d1.map Prod.fst).toFinset ⊆ (d2.map Prod.fst).toFinset := by
    intro k hk
    rw [List.mem_toFinset] at hk ⊢
    exact hsub k hk
  constructor
  · intro hlen k hk
    have hcard1 : (d1.map Prod.fst).toFinset.card = (d1.map Prod.fst).length :=
      List.toFinset_card_of_nodup h1
    have hcard2 : (d2.map Prod.fst).toFinset.card = (d2.map Prod.fst).length :=
      List.toFinset_card_of_nodup h2
    have heq : (d1.map Prod.fst).toFinset = (d2.map Prod.fst).toFinset := by
      apply Finset.eq_of_subset_of_card_le hfsub
      rw [hcard1, hcard2, ← hlen1, ← hlen2, hlen]
    rw [← List.mem_toFinset, ← heq, List.mem_toFinset] at hk
    exact hk
  · intro hsub2
    have hfsub2 : (d2.map Prod.fst).toFinset ⊆ (d1.map Prod.fst).toFinset := by
      intro k hk
      rw [List.mem_toFinset] at hk ⊢
      exact hsub2 k hk
    have heq : (d1.map Prod.fst).toFinset = (d2.map Prod.fst).toFinset :=
      Finset.Subset.antisymm hfsub hfsub2
    rw [hlen1, hlen2, ← List.toFinset_card_of_nodup h1, ← List.toFinset_card_of_nodup h2, heq]

/-- The source's per-position dispatch agrees with the spec's structural
equivalence on well-formed values (fuel-indexed strong induction over
the combined size). -/
theorem equiv_eq_spec (n : Nat) :
    (∀ v1 v2, sizeOf v1 + sizeOf v2 ≤ n → wfVal v1 = true → wfVal v2 = true →
      equivVal v1 v2 = specEquivVal v1 v2) ∧
    (∀ xs ys, sizeOf xs + sizeOf ys ≤ n → wfList xs = true → wfList ys = true →
      equivList xs ys = specEquivList xs ys) ∧
    (∀ d1 d2, sizeOf d1 + sizeOf d2 ≤ n →
      (d1.map Prod.fst).Nodup → wfEntries d1 = true → wfEntries d2 = true →
      equivEntries d1 d2 = specEquivEntries d1 d2) := by
  induction n using Nat.strong_induction_on with
  | _ n ih =>
    refine ⟨?_, ?_, ?_⟩
    · intro v1 v2 hle h1 h2
      cases v1 <;> cases v2 <;>
        try (simp only [equivVal, specEquivVal]; done)
      case list.list xs ys =>
        simp only [equivVal, specEquivVal, isScalar, Bool.false_and, if_false]
        simp only [wfVal] at h1 h2
        simp only [PyVal.list.sizeOf_spec] at hle
        rw [(ih (sizeOf xs + sizeOf ys) (by omega)).2.1 xs ys le_rfl h1 h2]
      case list.tuple xs ys =>
        simp only [equivVal, specEquivVal, isScalar, Bool.false_and, if_false]
        simp only [wfVal] at h1 h2
        simp only [PyVal.list.sizeOf_spec, PyVal.tuple.sizeOf_spec] at hle
        rw [(ih (sizeOf xs + sizeOf ys) (by omega)).2.1 xs ys le_rfl h1 h2]
      case tuple.list xs ys =>
        simp only [equivVal, specEquivVal, isScalar, Bool.false_and, if_false]
        simp only [wfVal] at h1 h2
        simp only [PyVal.list.sizeOf_spec, PyVal.tuple.sizeOf_spec] at hle
        rw [(ih (sizeOf xs + sizeOf ys) (by omega)).2.1 xs ys le_rfl h1 h2]
      case tuple.tuple xs ys =>
        simp only [equivVal, specEquivVal, isScalar, Bool.false_and, if_false]
        simp only [wfVal] at h1 h2
        simp only [PyVal.tuple.sizeOf_spec] at hle
        rw [(ih (sizeOf xs + sizeOf ys) (by omega)).2.1 xs ys le_rfl h1 h2]
      case dict.dict d1 d2 =>
        simp only [equivVal, specEquivVal, isScalar, Bool.false_and, if_false]
        simp only [wfVal, Bool.and_eq_true, decide_eq_true_eq] at h1 h2
        simp only [PyVal.dict.sizeOf_spec] at hle
        rw [(ih (sizeOf d1 + sizeOf d2) (by omega)).2.2 d1 d2 le_rfl h1.1 h1.2 h2.2]
        rcases hspec : specEquivEntries d1 d2 with _ | _
        · simp [hspec]
        · have hsub := specEquivEntries_keySubset hspec
          have hlen := length_beq_eq_keySubset h1.1 h2.1 hsub
          rw [hlen, hsub]
          simp
    · intro xs ys hle h1 h2
      cases xs with
      | nil => cases ys <;> simp only [equivList, specEquivList]
      | cons x xs =>
        cases ys with
        | nil => simp only [equivList, specEquivList]
        | cons y ys =>
          simp only [equivList, specEquivList]
          simp only [wfList, Bool.and_eq_true] at h1 h2
          simp only [List.cons.sizeOf_spec] at hle
          rw [(ih (sizeOf x + sizeOf y) (by omega)).1 x y le_rfl h1.1 h2.1,
              (ih (sizeOf xs + sizeOf ys) (by omega)).2.1 xs ys le_rfl h1.2 h2.2]
    · intro d1 d2 hle hnd h1 h2
      cases d1 with
      | nil => simp only [equivEntries, specEquivEntries]
      | cons e rest =>
        obtain ⟨k, v⟩ := e
        simp only [equivEntries, specEquivEntries]
        simp only [wfEntries, Bool.and_eq_true] at h1
        simp only [List.map_cons, List.nodup_cons] at hnd
        simp only [List.cons.sizeOf_spec, Prod.mk.sizeOf_spec] at hle
        rcases hlook : dictLookup d2 k with _ | w
        · rw [(ih (sizeOf rest + sizeOf d2) (by omega)).2.2 rest d2 le_rfl hnd.2 h1.2 h2]
        · have hw : wfVal w = true := dictLookup_wf h2 hlook
          have hsw : sizeOf w < sizeOf d2 := dictLookup_sizeOf hlook
          show (equivVal v w && equivEntries rest d2) =
            (specEquivVal v w && specEquivEntries rest d2)
          rw [(ih (sizeOf v + sizeOf w) (by omega)).1 v w le_rfl h1.1 hw,
              (ih (sizeOf rest + sizeOf d2) (by omega)).2.2 rest d2 le_rfl hnd.2 h1.2 h2]

theorem specEquivList_iff_zip (xs ys : List PyVal) :
    specEquivList xs ys = true ↔ ∀ p ∈ xs.zip ys, specEquivVal p.1 p.2 = true := by
  induction xs generalizing ys with
  | nil => simp [specEquivList]
  | cons x xs ih =>
    cases ys with
    | nil => simp [specEquivList]
    | cons y ys =>
      simp only [specEquivList, Bool.and_eq_true, List.zip_cons_cons, List.mem_cons, ih]
      constructor
      · rintro ⟨hxy, hrest⟩ p (rfl | hp)
        · exact hxy
        · exact hrest p hp
      · intro h
        exact ⟨h (x, y) (Or.inl rfl), fun p hp => h p (Or.inr hp)⟩

/-! ## Declared parameter types and `ValueGenerator` (value_generators.py)

A declared type is one of the seven types the generator tables know,
a user-defined class (known by name), or an unannotated/unsupported
type (`typing.Any` and friends). -/

inductive PyType where
  | int | float | str | bool | list | dict | tuple
  | userClass (name : String)
  | any
deriving DecidableEq

/-- `ValueGenerator.get_edge_cases_for_type` (value_generators.py lines
106-118): the fixed boundary-value table, with `[None]` as the default
for unknown types. -/
def get_edge_cases_for_type : PyType → List PyVal
  | .int => [.int 0, .int 1, .int (-1), .int 100, .int (-100)]
  | .float => [.float 0, .float 1, .float (-1), .float 100, .float (-100)]
  | .str => [.str "", .str "a", .str " ", .str "abc", .str (String.mk (List.replicate 100 'A'))]
  | .bool => [.bool true, .bool false]
  | .list => [.list [], .list [.int 1], .list [.int 1, .int 2, .int 3]]
  | .dict => [.dict [], .dict [(.str "key", .str "value")],
              .dict [(.str "a", .int 1), (.str "b", .int 2)]]
  | .tuple => [.tuple [], .tuple [.int 1], .tuple [.int 1, .int 2, .int 3]]
  | .userClass _ => [.none]
  | .any => [.none]

/-- Whether `ValueGenerator.get_generator_for_type` finds a generator
(value_generators.py lines 92-104): only the seven table types do. -/
def hasGenerator : PyType → Bool
  | .int | .float | .str | .bool | .list | .dict | .tuple => true
  | _ => false

/-- `param_type.__name__` where available (`typing.Any` has none). -/
def typeName : PyType → Option String
  | .int => some "int"
  | .float => some "float"
  | .str => some "str"
  | .bool => some "bool"
  | .list => some "list"
  | .dict => some "dict"
  | .tuple => some "tuple"
  | .userClass n => some n
  | .any => Option.none

/-! ## Invocation outcomes and case records

An exception kind is the name of its class; the engine's own timeout
exception (exceptions.py) is the distinguished kind below.  Wherever
`timeout_handler` is the installed SIGALRM handler, a deadline expiry
raises exactly this kind inside the protected region, so a timeout and
target code raising `TimeoutException` itself are indistinguishable to
the `except` dispatch — the model shares one outcome for both. -/

def timeoutName : String := "TimeoutException"

/-- Result of running a candidate against target code. -/
inductive Outcome where
  | returned (v : PyVal)
  | raised (k : String)

/-- `TestCase` (models.py lines 7-13); `description` is not modelled. -/
structure TestCase where
  inputs : List PyVal
  expected_output : PyVal
  raises : Option String

/-- `ClassMethodTestCase` (models.py lines 15-28); `class_type`,
`description` and the state-validation hooks are not modelled. -/
structure ClassMethodTestCase where
  constructor_inputs : List PyVal
  method_name : String
  method_inputs : List PyVal
  expected_output : PyVal
  raises : Option String
  is_property_getter : Bool

/-- The `try/except TimeoutException/except Exception` dispatch shared
by the function and method generators (test_generator.py lines 77-98,
test_generator_methods.py lines 345-380): a returned value is recorded,
a timeout is discarded, any other raised kind is recorded as an
expected-error case with null expected output. -/
def processFuncOutcome (inputs : List PyVal) : Outcome → Option TestCase
  | .returned v => some ⟨inputs, v, Option.none⟩
  | .raised k =>
    if k = timeoutName then Option.none
    else some ⟨inputs, PyVal.none, some k⟩

/-- Same dispatch producing a `ClassMethodTestCase`. -/
def processMethodOutcome (name : String) (ctorIns inputs : List PyVal) :
    Outcome → Option ClassMethodTestCase
  | .returned v => some ⟨ctorIns, name, inputs, v, Option.none, false⟩
  | .raised k =>
    if k = timeoutName then Option.none
    else some ⟨ctorIns, name, inputs, PyVal.none, some k, false⟩

/-- The property-getter variant (is_property_getter is set in both the
success and the error branch, test_generator_methods.py lines 498-519). -/
def processGetterOutcome (name : String) (ctorIns : List PyVal) :
    Outcome → Option ClassMethodTestCase
  | .returned v => some ⟨ctorIns, name, [], v, Option.none, true⟩
  | .raised k =>
    if k = timeoutName then Option.none
    else some ⟨ctorIns, name, [], PyVal.none, some k, true⟩

/-- The constructor sweep's dispatch (test_generator_methods.py lines
129-151 and 173-195): `cls(*inputs)` is run only for success/failure,
expected output is always null, and a raised `TimeoutException` is
skipped. -/
def processCtorOutcome (ctorIns : List PyVal) :
    Except String Unit → Option ClassMethodTestCase
  | .ok _ => some ⟨ctorIns, "__init__", [], PyVal.none, Option.none, false⟩
  | .error k =>
    if k = timeoutName then Option.none
    else some ⟨ctorIns, "__init__", [], PyVal.none, some k, false⟩

/-- The zero-parameter constructor branch (test_generator_methods.py
lines 72-94): a bare `try/except Exception` with no timeout handling at
all — every raised kind, `TimeoutException` included, becomes an
expected-error case. -/
def ctorNoParamCase : Except String Unit → ClassMethodTestCase
  | .ok _ => ⟨[], "__init__", [], PyVal.none, Option.none, false⟩
  | .error k => ⟨[], "__init__", [], PyVal.none, some k, false⟩

/-! ## Candidate construction

Each call of `_generate_value_for_type` made by a generator draws the
next element of the abstract stream `gv` (see the header note); the
counter `c` indexes calls in program order. -/

/-- Inputs for one fully-random candidate: a typical value per
parameter (test_generator.py lines 64-69 and analogues). -/
def buildRandomInputs (gv : Nat → PyVal) : List PyType → Nat → List PyVal × Nat
  | [], c => ([], c)
  | _ :: ts, c =>
    let (rest, c') := buildRandomInputs gv ts (c + 1)
    (gv c :: rest, c')

/-- Inputs for one boundary candidate: the swept position `idx` holds
the boundary value, every other position a typical value
(test_generator.py lines 128-139, test_generator_methods.py lines
100-110 and 315-326). -/
def buildEdgeInputs (gv : Nat → PyVal) (edge : PyVal) :
    List PyType → Nat → Nat → List PyVal × Nat
  | [], _, c => ([], c)
  | _ :: ts, 0, c =>
    let (rest, c') := buildRandomInputs gv ts c
    (edge :: rest, c')
  | _ :: ts, idx + 1, c =>
    let (rest, c') := buildEdgeInputs gv edge ts idx (c + 1)
    (gv c :: rest, c')

/-- The boundary sweep's candidate schedule: swept-parameter-major,
boundary-value-minor. -/
def edgeCandidates (ptys : List PyType) : List (Nat × PyVal) :=
  ptys.enum.flatMap (fun p => (get_edge_cases_for_type p.2).map (fun e => (p.1, e)))

/-! ## Free functions: `TestCaseGenerator.generate_test_cases`
(test_generator.py lines 43-174).  No deduplication is performed in
either phase. -/

/-- Boundary-sweep phase over a candidate schedule (no dedup). -/
def funcEdgeLoop (oracle : List PyVal → Outcome) (gv : Nat → PyVal)
    (ptys : List PyType) : List (Nat × PyVal) → Nat → List TestCase × Nat
  | [], c => ([], c)
  | (idx, e) :: rest, c =>
    let (inputs, c') := buildEdgeInputs gv e ptys idx c
    let out := funcEdgeLoop oracle gv ptys rest c'
    ((processFuncOutcome inputs (oracle inputs)).toList ++ out.1, out.2)

/-- Random-sampling phase, `num_cases` iterations (no dedup). -/
def funcRandomLoop (oracle : List PyVal → Outcome) (gv : Nat → PyVal)
    (ptys : List PyType) : Nat → Nat → List TestCase × Nat
  | 0, c => ([], c)
  | n + 1, c =>
    let (inputs, c') := buildRandomInputs gv ptys c
    let out := funcRandomLoop oracle gv ptys n c'
    ((processFuncOutcome inputs (oracle inputs)).toList ++ out.1, out.2)

/-- `generate_test_cases(func, num_cases)`: boundary cases first, then
`num_cases` random candidates.  (With an empty parameter list the edge
phase contributes nothing, matching the early return at line 124-125.) -/
def generate_test_cases (ptys : List PyType) (oracle : List PyVal → Outcome)
    (gv : Nat → PyVal) (num_cases : Nat) : List TestCase :=
  let e := funcEdgeLoop oracle gv ptys (edgeCandidates ptys) 0
  e.1 ++ (funcRandomLoop oracle gv ptys num_cases e.2).1

/-! ## Deduplicated sweeps (constructor edge phase, method phases,
setter phases).  A candidate's inputs are compared against every
already-used tuple with `_are_functionally_equivalent`; fresh inputs
are appended to the used list before invocation, so a timed-out
candidate still blocks later equivalent candidates. -/

structure DedupOut where
  cases : List ClassMethodTestCase
  used : List (List PyVal)
  ctr : Nat

/-- Deduplicated boundary sweep (test_generator_methods.py lines
100-157 for constructors, 315-386 for methods). -/
def dedupEdgeLoop (proc : List PyVal → Option ClassMethodTestCase)
    (gv : Nat → PyVal) (ptys : List PyType) :
    List (Nat × PyVal) → List (List PyVal) → Nat → DedupOut
  | [], used, c => ⟨[], used, c⟩
  | (idx, e) :: rest, used, c =>
    let (inputs, c') := buildEdgeInputs gv e ptys idx c
    if used.any (fun u => areFunEquiv inputs u) then
      dedupEdgeLoop proc gv ptys rest used c'
    else
      let out := dedupEdgeLoop proc gv ptys rest (used ++ [inputs]) c'
      ⟨(proc inputs).toList ++ out.cases, out.used, out.ctr⟩

/-- Deduplicated random phase (test_generator_methods.py lines
389-455). -/
def dedupRandomLoop (proc : List PyVal → Option ClassMethodTestCase)
    (gv : Nat → PyVal) (ptys : List PyType) :
    Nat → List (List PyVal) → Nat → DedupOut
  | 0, used, c => ⟨[], used, c⟩
  | n + 1, used, c =>
    let (inputs, c') := buildRandomInputs gv ptys c
    if used.any (fun u => areFunEquiv inputs u) then
      dedupRandomLoop proc gv ptys n used c'
    else
      let out := dedupRandomLoop proc gv ptys n (used ++ [inputs]) c'
      ⟨(proc inputs).toList ++ out.cases, out.used, out.ctr⟩

/-! ## Constructors: `_generate_constructor_test_cases`
(test_generator_methods.py lines 59-203).  The boundary sweep is
deduplicated; the random phase is NOT — it neither consults nor extends
`used_inputs` (lines 159-201). -/

/-- Random constructor phase: no dedup check at all. -/
def ctorRandomLoop (construct : List PyVal → Except String Unit)
    (gv : Nat → PyVal) (ctorTys : List PyType) :
    Nat → Nat → List ClassMethodTestCase × Nat
  | 0, c => ([], c)
  | n + 1, c =>
    let (inputs, c') := buildRandomInputs gv ctorTys c
    let out := ctorRandomLoop construct gv ctorTys n c'
    ((processCtorOutcome inputs (construct inputs)).toList ++ out.1, out.2)

def ctorGen (construct : List PyVal → Except String Unit)
    (ctorTys : List PyType) (gv : Nat → PyVal) (num_cases : Nat) :
    List ClassMethodTestCase :=
  if ctorTys.isEmpty then [ctorNoParamCase (construct [])]
  else
    let proc := fun inputs => processCtorOutcome inputs (construct inputs)
    let e := dedupEdgeLoop proc gv ctorTys (edgeCandidates ctorTys) [] 0
    e.cases ++ (ctorRandomLoop construct gv ctorTys num_cases e.ctr).1

/-! ## Methods: `_generate_method_test_cases`
(test_generator_methods.py lines 206-457). -/

inductive MethodKind where
  | instanceM | classM | staticM
deriving DecidableEq

/-- The constructor-failure record (lines 240-248). -/
def ctorFailCase (name : String) (ctorIns : List PyVal) (k : String) :
    ClassMethodTestCase :=
  ⟨ctorIns, name, [], PyVal.none, some k, false⟩

/-- Edge + random sweep for one method, shared `used_inputs` across
both phases; a parameterless method gets exactly one candidate and no
random phase (lines 264-312). -/
def methodSweep (name : String) (ctorIns : List PyVal) (ptys : List PyType)
    (invoke : List PyVal → List PyVal → Outcome) (gv : Nat → PyVal)
    (num_cases : Nat) (c0 : Nat) : List ClassMethodTestCase :=
  if ptys.isEmpty then (processMethodOutcome name ctorIns [] (invoke ctorIns [])).toList
  else
    let proc := fun inputs => processMethodOutcome name ctorIns inputs (invoke ctorIns inputs)
    let e := dedupEdgeLoop proc gv ptys (edgeCandidates ptys) [] c0
    let r := dedupRandomLoop proc gv ptys num_cases e.used e.ctr
    e.cases ++ r.cases

/-- `_generate_method_test_cases`.  For an instance method the class is
first instantiated (no-argument, then with synthesized constructor
arguments); if both fail, a single constructor-failure case is emitted
and the sweep is skipped (lines 218-254).  Class methods and static
methods skip instantiation entirely and invoke through the class. -/
def methodGen (mt : MethodKind)
    (mk : List PyVal → Except String Unit)
    (hasCtorInfo : Bool) (ctorTys : List PyType)
    (name : String) (ptys : List PyType)
    (invoke : List PyVal → List PyVal → Outcome)
    (gv : Nat → PyVal) (num_cases : Nat) : List ClassMethodTestCase :=
  match mt with
  | .instanceM =>
    match mk [] with
    | .ok _ => methodSweep name [] ptys invoke gv num_cases 0
    | .error _ =>
      if hasCtorInfo then
        let (ctorIns, c1) := buildRandomInputs gv ctorTys 0
        match mk ctorIns with
        | .ok _ => methodSweep name ctorIns ptys invoke gv num_cases c1
        | .error k => [ctorFailCase name ctorIns k]
      else []
  | _ => methodSweep name [] ptys invoke gv num_cases 0

/-! ## Properties (test_generator_methods.py lines 460-683).

The instance behaviour is abstracted over a state type `σ`:
`mk args` models `cls(*args)`, `setRet s v` models
`setattr(instance, prop, v)` — returning the successor state and the
setter's own (discarded) return value — and `get s` models
`getattr(instance, prop)`. -/

/-- The shared make-a-valid-instance preamble (lines 466-486 and
537-558): try `cls()`, then synthesized constructor arguments; on
double failure the property generators give up and return `[]`. -/
def resolveInstance {σ : Type} (mk : List PyVal → Except String σ)
    (hasCtorInfo : Bool) (ctorTys : List PyType) (gv : Nat → PyVal) (c : Nat) :
    Option (σ × List PyVal) × Nat :=
  match mk [] with
  | .ok s => (some (s, []), c)
  | .error _ =>
    if hasCtorInfo then
      let (ins, c') := buildRandomInputs gv ctorTys c
      match mk ins with
      | .ok s => (some (s, ins), c')
      | .error _ => (Option.none, c')
    else (Option.none, c)

/-- One setter candidate (lines 585-593): construct a FRESH instance,
write the value through the setter, read back through the getter; the
read-back value is the recorded expected output.  The setter's own
return value is discarded. -/
def readBack {σ : Type} (get : σ → Except String PyVal) (s' : σ) : Outcome :=
  match get s' with
  | .error k => .raised k
  | .ok w => .returned w

def writeThenRead {σ : Type} (setRet : σ → PyVal → Except String (σ × PyVal))
    (get : σ → Except String PyVal) (s : σ) (v : PyVal) : Outcome :=
  match setRet s v with
  | .error k => .raised k
  | .ok (s', _) => readBack get s'

def runSetter {σ : Type} (mk : List PyVal → Except String σ)
    (setRet : σ → PyVal → Except String (σ × PyVal))
    (get : σ → Except String PyVal)
    (ctorIns : List PyVal) (v : PyVal) : Outcome :=
  match mk ctorIns with
  | .error k => .raised k
  | .ok s => writeThenRead setRet get s v

/-- Deduplicated sweep over single property values (lines 567-621); the
used list stores raw values and candidates are compared as singleton
tuples. -/
def setterEdgeLoop (proc : PyVal → Option ClassMethodTestCase) :
    List PyVal → List PyVal → List ClassMethodTestCase × List PyVal
  | [], used => ([], used)
  | v :: rest, used =>
    if used.any (fun u => areFunEquiv [v] [u]) then setterEdgeLoop proc rest used
    else
      let out := setterEdgeLoop proc rest (used ++ [v])
      ((proc v).toList ++ out.1, out.2)

/-- Random setter phase (lines 624-681), one generated value per
iteration, same dedup discipline. -/
def setterRandomLoop (proc : PyVal → Option ClassMethodTestCase)
    (gv : Nat → PyVal) : Nat → List PyVal → Nat → List ClassMethodTestCase × List PyVal
  | 0, used, _ => ([], used)
  | n + 1, used, c =>
    let v := gv c
    if used.any (fun u => areFunEquiv [v] [u]) then
      setterRandomLoop proc gv n used (c + 1)
    else
      let out := setterRandomLoop proc gv n (used ++ [v]) (c + 1)
      ((proc v).toList ++ out.1, out.2)

/-- `_generate_property_setter_test_cases` (lines 529-683).  The swept
values come from the boundary table of the property's declared type
(the getter's return annotation), then `num_cases` random values. -/
def setterGen {σ : Type} (mk : List PyVal → Except String σ)
    (hasCtorInfo : Bool) (ctorTys : List PyType) (propName : String)
    (propType : PyType)
    (setRet : σ → PyVal → Except String (σ × PyVal))
    (get : σ → Except String PyVal)
    (gv : Nat → PyVal) (num_cases : Nat) : List ClassMethodTestCase :=
  match resolveInstance mk hasCtorInfo ctorTys gv 0 with
  | (Option.none, _) => []
  | (some (_, ctorIns), c0) =>
    let proc := fun v =>
      processMethodOutcome ("set_" ++ propName) ctorIns [v]
        (runSetter mk setRet get ctorIns v)
    let e := setterEdgeLoop proc (get_edge_cases_for_type propType) []
    e.1 ++ (setterRandomLoop proc gv num_cases e.2 c0).1

/-- `_generate_property_getter_test_cases` (lines 460-526): exactly one
candidate, read through the validation instance itself. -/
def getterGen {σ : Type} (mk : List PyVal → Except String σ)
    (hasCtorInfo : Bool) (ctorTys : List PyType) (propName : String)
    (get : σ → Except String PyVal) (gv : Nat → PyVal) :
    List ClassMethodTestCase :=
  match resolveInstance mk hasCtorInfo ctorTys gv 0 with
  | (Option.none, _) => []
  | (some (s, ctorIns), _) =>
    let outcome := match get s with
      | .ok w => Outcome.returned w
      | .error k => Outcome.raised k
    (processGetterOutcome ("get_" ++ propName) ctorIns outcome).toList

/-! ## `TestCaseGenerator._generate_value_for_type`
(test_generator.py lines 176-214). -/

/-- The standard path: look up a `ValueGenerator` for the type and draw
one value, or fall back to `None` for unsupported types (lines
208-214).  A call with `class_type=None` — as made for the inner
constructor parameters at line 201 — reduces to exactly this. -/
def fallbackGen (pt : PyType) (gv : Nat → PyVal) (c : Nat) : PyVal × Nat :=
  if hasGenerator pt then (gv c, c + 1) else (PyVal.none, c)

/-- Values for the parameters of the self-referential constructor: each
inner parameter is generated WITHOUT the class context (line 201), so a
nested self-reference falls through to the generator table. -/
def genCtorValues : List PyType → (Nat → PyVal) → Nat → List PyVal × Nat
  | [], _, c => ([], c)
  | t :: ts, gv, c =>
    let (v, c') := fallbackGen t gv c
    let (rest, c'') := genCtorValues ts gv c'
    (v :: rest, c'')

/-- The class under analysis, as `_generate_value_for_type` needs it:
its name, whether `ClassAnalyzer` produced a constructor descriptor,
the descriptor's parameter types, and the effect of
`param_type(*constructor_inputs)`. -/
structure ClassUnderTest where
  name : String
  hasCtorInfo : Bool
  ctorParamTys : List PyType
  construct : List PyVal → Except String PyVal

/-- `_generate_value_for_type(param_type, param_name, class_type)`.
When the declared type's name equals the class-under-analysis's name,
synthesis recurses into the constructor descriptor and returns the
constructed instance; if construction raises, `None` is returned
instead of propagating (lines 190-206).  With no constructor
descriptor, or no class context, the standard path applies. -/
def generateValueForType (cut : Option ClassUnderTest) (pt : PyType)
    (gv : Nat → PyVal) (c : Nat) : PyVal × Nat :=
  match cut with
  | some cls =>
    if typeName pt = some cls.name then
      if cls.hasCtorInfo then
        let (ins, c') := genCtorValues cls.ctorParamTys gv c
        match cls.construct ins with
        | .ok v => (v, c')
        | .error _ => (PyVal.none, c')
      else fallbackGen pt gv c
    else fallbackGen pt gv c
  | Option.none => fallbackGen pt gv c

/-! ## SIGALRM handler installation (the timeout machinery)

`timeout_handler` (exceptions.py lines 12-14) raises
`TimeoutException`, which the adjacent `except TimeoutException`
branches catch, skipping the candidate.  The constructor sweep instead
installs `signal.SIG_DFL` (test_generator_methods.py lines 126 and
170): under the default disposition a delivered SIGALRM terminates the
process, so no `TimeoutException` is ever raised there and the
`except TimeoutException` branch below it is unreachable for a genuine
deadline expiry. -/

inductive AlarmHandler where
  | timeoutHandler
  | sigDfl
deriving DecidableEq

/-- The code regions that arm a 3-second alarm. -/
inductive AlarmSite where
  | funcEdge | funcRandom
  | ctorEdge | ctorRandom
  | methodNoArg | methodEdge | methodRandom
  | propGetter | propSetterEdge | propSetterRandom
deriving DecidableEq

/-- The handler each region installs immediately before `alarm(3)`
(read off the source: `timeout_handler` everywhere except the two
constructor loops, which pass `signal.SIG_DFL`). -/
def installedHandler : AlarmSite → AlarmHandler
  | .ctorEdge => .sigDfl
  | .ctorRandom => .sigDfl
  | _ => .timeoutHandler

/-- Whether a deadline expiry in the region surfaces as a catchable
`TimeoutException` (it does exactly when `timeout_handler` is
installed; under `SIG_DFL` the default action terminates the
process). -/
def expiryRaisesCatchableTimeout (s : AlarmSite) : Bool :=
  installedHandler s == .timeoutHandler

/-! ## The serializer's error-path dispatch (pytest_generator.py)

Cases are partitioned on `tc.raises is None` (lines 479 and 501); an
erroring case is rendered by `_generate_exception_test` (lines
82-105), whose output mentions only the test name, the error kind and
the call expression over the inputs — never `expected_output`. -/

/-- `[tc for tc in test_cases if tc.raises is not None]`. -/
def rendersAsExceptionTest (tc : TestCase) : Bool :=
  tc.raises.isSome

/-- The lines `_generate_exception_test` emits for a function case
(description comments are not modelled). -/
def exceptionTestLines (funcName : String) (i : Nat) (tc : TestCase) : List String :=
  ["def test_" ++ funcName ++ "_raises_" ++ toString i ++ "():",
   "    with pytest.raises(" ++ (tc.raises.getD "") ++ "):",
   "        " ++ funcName ++ "(*" ++ ((pyRepr (PyVal.list tc.inputs)).getD "") ++ ")"]

/-! ## `ClassAnalyzer` (class_analyzer.py)

A class is modelled by its own namespace: the names its `__dict__`
binds as static methods, class methods, plain functions (dunders and
private names included) and properties.  A hierarchy is the list
produced by `_get_class_hierarchy` — analyzed class first, `object`
excluded.  Single inheritance only is modelled, so that
`inspect.getmembers(current_cls)` sees exactly the suffix of the
hierarchy starting at `current_cls` (descriptor parameter lists are
irrelevant to the claims and omitted; `getmembers`'s alphabetical
ordering is irrelevant because every name is handled at most once per
pass and names do not interact). -/

structure PyClassNode where
  name : String
  statics : List String
  classms : List String
  funcs : List String
  props : List String
deriving DecidableEq

/-- How a name is bound in one class's own namespace.  `getattr` on the
class yields: a plain function for functions AND for static methods
(`inspect.isfunction` is true for both), a bound method for class
methods (isfunction false), the property object for properties. -/
inductive BindKind where
  | func | staticm | classm | prop
deriving DecidableEq

def ownKind (n : PyClassNode) (x : String) : Option BindKind :=
  if x ∈ n.statics then some .staticm
  else if x ∈ n.classms then some .classm
  else if x ∈ n.funcs then some .func
  else if x ∈ n.props then some .prop
  else Option.none

/-- Ordinary attribute lookup along the hierarchy suffix: the first
class whose own namespace binds the name decides the kind. -/
def lookupKind : List PyClassNode → String → Option BindKind
  | [], _ => Option.none
  | n :: rest, x =>
    match ownKind n x with
    | some k => some k
    | Option.none => lookupKind rest x

/-- All names visible from a hierarchy suffix, first-definer order. -/
def visibleNames (chain : List PyClassNode) : List String :=
  (chain.flatMap (fun n => n.statics ++ n.classms ++ n.funcs ++ n.props)).dedup

/-- `inspect.getmembers(cls, predicate=inspect.isfunction)`: the names
that resolve to a plain function — including static methods, whose
class-level `getattr` is the underlying function. -/
def funcNames (chain : List PyClassNode) : List String :=
  (visibleNames chain).filter
    (fun x => lookupKind chain x = some .func ∨ lookupKind chain x = some .staticm)

/-- `inspect.getmembers(cls, predicate=lambda x: isinstance(x, property))`. -/
def propNames (chain : List PyClassNode) : List String :=
  (visibleNames chain).filter (fun x => lookupKind chain x = some .prop)

/-- `name.startswith('__') and name.endswith('__')`, on character
lists (Python string prefixes/suffixes are character-based). -/
def isDunder (x : String) : Bool :=
  "__".data.isPrefixOf x.data && "__".data.isSuffixOf x.data

/-- `name.startswith('_')`. -/
def isPrivate (x : String) : Bool :=
  "_".data.isPrefixOf x.data

/-- The analysis result: per category, association list of member name
to the recorded `defined_in` class name. -/
structure ClassInfo where
  name : String
  methods : List (String × String)
  class_methods : List (String × String)
  static_methods : List (String × String)
  special_methods : List (String × String)
  properties : List (String × String)
  ctorDefinedIn : String
  base_classes : List String
deriving DecidableEq

/-- First pass, `_identify_special_method_types` folded over the whole
hierarchy (class_analyzer.py lines 41-44 and 84-127): per class, the
static/class methods bound in that class's OWN `__dict__`, skipping
names already processed by a more-derived class, marking the rest. -/
def pass1 : List PyClassNode → List String →
    List (String × String) × List (String × String) × List String
  | [], processed => ([], [], processed)
  | n :: rest, processed =>
    let newStatics := n.statics.filter (fun x => x ∉ processed)
    -- `cls.__dict__` binds each name exactly once, so a name taken as a
    -- static method cannot also be taken as a class method of the same
    -- class (the model's separate lists re-impose this).
    let newClassms := n.classms.filter (fun x => x ∉ processed ∧ x ∉ newStatics)
    let out := pass1 rest (processed ++ newStatics ++ newClassms)
    (newStatics.map (fun x => (x, n.name)) ++ out.1,
     newClassms.map (fun x => (x, n.name)) ++ out.2.1,
     out.2.2)

structure Pass2State where
  methods : List (String × String)
  special_methods : List (String × String)
  properties : List (String × String)
  processedM : List String
  processedP : List String
deriving DecidableEq

/-- One name of the function loop (class_analyzer.py lines 157-187):
skip if processed, otherwise mark processed, then file dunders (except
`__init__`) under special methods, drop other underscore names, and
record the rest as instance methods — attributed to the class being
VISITED (`cls.__name__` at line 184), not to the defining class. -/
def classifyFn (cur : String) (st : Pass2State) (x : String) : Pass2State :=
  if x ∈ st.processedM then st
  else
    let st' := { st with processedM := st.processedM ++ [x] }
    if isDunder x then
      if x = "__init__" then st'
      else { st' with special_methods := st'.special_methods ++ [(x, cur)] }
    else if isPrivate x then st'
    else { st' with methods := st'.methods ++ [(x, cur)] }

/-- One name of the property loop (lines 190-213): its own processed
set, no underscore filtering. -/
def classifyProp (cur : String) (st : Pass2State) (x : String) : Pass2State :=
  if x ∈ st.processedP then st
  else
    { st with processedP := st.processedP ++ [x],
              properties := st.properties ++ [(x, cur)] }

/-- Second pass (lines 49-50 and 129-213): walk the hierarchy
derived-first; for each visited class run the function loop, then the
property loop, over the members `getmembers` reports for it — i.e. over
everything visible from the suffix starting at that class. -/
def pass2 : List PyClassNode → Pass2State → Pass2State
  | [], st => st
  | n :: rest, st =>
    let st1 := (funcNames (n :: rest)).foldl (classifyFn n.name) st
    let st2 := (propNames (n :: rest)).foldl (classifyProp n.name) st1
    pass2 rest st2

/-- `ClassAnalyzer.analyze_class` over a (single-inheritance)
hierarchy.  The constructor descriptor is recorded at the first visited
class — every class reaches an `__init__` through inheritance, so
`defined_in` for the constructor is always the analyzed class itself
(lines 143-152). -/
def analyzeClass (chain : List PyClassNode) : ClassInfo :=
  match chain with
  | [] => ⟨"", [], [], [], [], [], "", []⟩
  | c :: rest =>
    let p1 := pass1 (c :: rest) []
    let st := pass2 (c :: rest) ⟨[], [], [], p1.2.2, []⟩
    ⟨c.name, st.methods, p1.2.1, p1.1, st.special_methods, st.properties,
     c.name, (rest.head?.map PyClassNode.name).toList⟩

/-! ### What the spec says attribution should be (for C2)

The spec's invariant: a member name appears in exactly one category and
`defined_in` is the most-derived class that defines the member in its
own namespace.  The functions below express, from the code, what the
analyzer actually attributes: static/class-bound members go to the
most-derived class DECLARING them as such, while plain methods and
properties go to the head of the first hierarchy suffix from which they
are merely VISIBLE. -/

/-- The most-derived class declaring the name as a static or class
method in its own namespace (`true` = static). -/
def firstSCDecl : List PyClassNode → String → Option (String × Bool)
  | [], _ => Option.none
  | n :: rest, x =>
    if x ∈ n.statics then some (n.name, true)
    else if x ∈ n.classms then some (n.name, false)
    else firstSCDecl rest x

/-- The head of the first hierarchy suffix from which the name resolves
to a plain function (own function or static method, anywhere up the
chain). -/
def firstFuncVisible : List PyClassNode → String → Option String
  | [], _ => Option.none
  | n :: rest, x =>
    if lookupKind (n :: rest) x = some .func ∨ lookupKind (n :: rest) x = some .staticm
    then some n.name
    else firstFuncVisible rest x

/-- The head of the first hierarchy suffix from which the name resolves
to a property. -/
def firstPropVisible : List PyClassNode → String → Option String
  | [], _ => Option.none
  | n :: rest, x =>
    if lookupKind (n :: rest) x = some .prop then some n.name
    else firstPropVisible rest x

/-- `class B: def m(self): ...; p = property(...)`. -/
def exB : PyClassNode := ⟨"B", [], [], ["m"], ["p"]⟩

/-- `class D(B): def p(self): ...` — shadows the property with a plain
method and inherits `m` untouched. -/
def exD : PyClassNode := ⟨"D", [], [], ["p"], []⟩

/-! # Theorems settling the claims -/

/-- C8: The equivalence filter returns true on two input tuples iff they
have equal length and every position is structurally equivalent: scalars
compare by value; ordered collections compare by length and then
pairwise recursive equivalence; mappings compare by key-set and
recursive equivalence of the values under each key; any other pair falls
back to comparing canonical printable representations, and is not
equivalent if producing that representation fails.  (Stated on values
whose dicts have duplicate-free keys, which every Python dict has.) -/
theorem C8_equiv_filter_iff_structural (xs ys : List PyVal)
    (hx : wfList xs = true) (hy : wfList ys = true) :
    areFunEquiv xs ys = true ↔
      xs.length = ys.length ∧ ∀ p ∈ xs.zip ys, specEquivVal p.1 p.2 = true := by
  rw [areFunEquiv, Bool.and_eq_true, beq_iff_eq,
    (equiv_eq_spec (sizeOf xs + sizeOf ys)).2.1 xs ys le_rfl hx hy, specEquivList_iff_zip]

/-- Witness for C8 at concrete input tuples `(1, {"a": 1})` and
`(True, {"a": 1.0})`. -/
theorem C8_equiv_filter_iff_structural_witness :
    wfList [PyVal.int 1, PyVal.dict [(PyKey.str "a", PyVal.int 1)]] = true ∧
    wfList [PyVal.bool true, PyVal.dict [(PyKey.str "a", PyVal.float 1)]] = true ∧
    (areFunEquiv [PyVal.int 1, PyVal.dict [(PyKey.str "a", PyVal.int 1)]]
        [PyVal.bool true, PyVal.dict [(PyKey.str "a", PyVal.float 1)]] = true ↔
      ([PyVal.int 1, PyVal.dict [(PyKey.str "a", PyVal.int 1)]].length =
        [PyVal.bool true, PyVal.dict [(PyKey.str "a", PyVal.float 1)]].length ∧
       ∀ p ∈ [PyVal.int 1, PyVal.dict [(PyKey.str "a", PyVal.int 1)]].zip
          [PyVal.bool true, PyVal.dict [(PyKey.str "a", PyVal.float 1)]],
         specEquivVal p.1 p.2 = true)) :=
  ⟨by decide, by decide,
   C8_equiv_filter_iff_structural _ _ (by decide) (by decide)⟩

/-- A candidate that does not time out is always recorded, with its own
input tuple. -/
theorem processFuncOutcome_map_inputs (inputs : List PyVal) (o : Outcome)
    (h : o ≠ .raised timeoutName) :
    (processFuncOutcome inputs o).toList.map TestCase.inputs = [inputs] := by
  cases o with
  | returned v => rfl
  | raised k =>
    have hk : ¬(k = timeoutName) := fun hk => h (by rw [hk])
    simp [processFuncOutcome, hk]

/-- C4: For a one-parameter function annotated with the integer type,
the generated case list contains candidates with inputs 0, 1, −1, 100
and −100 (the integer boundary values, in that order), and every such
boundary case precedes every randomly sampled case in the output list.
(Assuming no candidate times out; a timed-out candidate is dropped.) -/
theorem C4_int_boundary_sweep (oracle : List PyVal → Outcome) (gv : Nat → PyVal)
    (n : Nat) (hnt : ∀ xs, oracle xs ≠ .raised timeoutName) :
    generate_test_cases [PyType.int] oracle gv n =
      (funcEdgeLoop oracle gv [PyType.int] (edgeCandidates [PyType.int]) 0).1 ++
      (funcRandomLoop oracle gv [PyType.int] n
        (funcEdgeLoop oracle gv [PyType.int] (edgeCandidates [PyType.int]) 0).2).1 ∧
    ((funcEdgeLoop oracle gv [PyType.int] (edgeCandidates [PyType.int]) 0).1).map
        TestCase.inputs =
      [[PyVal.int 0], [PyVal.int 1], [PyVal.int (-1)], [PyVal.int 100],
       [PyVal.int (-100)]] := by
  refine ⟨rfl, ?_⟩
  have hrec : ∀ inputs : List PyVal,
      (processFuncOutcome inputs (oracle inputs)).toList.map TestCase.inputs = [inputs] :=
    fun inputs => processFuncOutcome_map_inputs inputs (oracle inputs) (hnt inputs)
  have hcand : edgeCandidates [PyType.int] =
      [(0, PyVal.int 0), (0, PyVal.int 1), (0, PyVal.int (-1)), (0, PyVal.int 100),
       (0, PyVal.int (-100))] := rfl
  rw [hcand]
  simp only [funcEdgeLoop, buildEdgeInputs, buildRandomInputs, List.map_append, hrec]
  rfl

/-- Witness for C4 at a concrete oracle (`fun xs => returned 0`). -/
theorem C4_int_boundary_sweep_witness :
    (∀ xs : List PyVal,
      (fun _ : List PyVal => Outcome.returned (PyVal.int 0)) xs ≠
        Outcome.raised timeoutName) ∧
    ((funcEdgeLoop (fun _ => Outcome.returned (PyVal.int 0)) (fun _ => PyVal.int 3)
        [PyType.int] (edgeCandidates [PyType.int]) 0).1).map TestCase.inputs =
      [[PyVal.int 0], [PyVal.int 1], [PyVal.int (-1)], [PyVal.int 100],
       [PyVal.int (-100)]] :=
  ⟨fun _ => Outcome.noConfusion,
   (C4_int_boundary_sweep (fun _ => Outcome.returned (PyVal.int 0))
     (fun _ => PyVal.int 3) 2 (fun _ => Outcome.noConfusion)).2⟩

/-- C5: A candidate that raises a non-timeout error is recorded with the
raised kind as its expected-error kind and a null expected output; such
a case is routed to the exception-test renderer, whose output does not
depend on the expected-output field at all. -/
theorem C5_error_case_output_unobservable (inputs : List PyVal) (k : String)
    (h : k ≠ timeoutName) (v : PyVal) (fn : String) (i : Nat) :
    processFuncOutcome inputs (.raised k) =
      some ⟨inputs, PyVal.none, some k⟩ ∧
    rendersAsExceptionTest ⟨inputs, PyVal.none, some k⟩ = true ∧
    exceptionTestLines fn i ⟨inputs, v, some k⟩ =
      exceptionTestLines fn i ⟨inputs, PyVal.none, some k⟩ := by
  refine ⟨?_, rfl, rfl⟩
  simp [processFuncOutcome, h]

/-- Witness for C5: `divide(1, 0)` raising `ZeroDivisionError`. -/
theorem C5_error_case_output_unobservable_witness :
    ("ZeroDivisionError" ≠ timeoutName) ∧
    processFuncOutcome [PyVal.int 1, PyVal.int 0]
        (.raised "ZeroDivisionError") =
      some ⟨[PyVal.int 1, PyVal.int 0], PyVal.none, some "ZeroDivisionError"⟩ :=
  ⟨by decide,
   (C5_error_case_output_unobservable [PyVal.int 1, PyVal.int 0] "ZeroDivisionError"
     (by decide) (PyVal.int 99) "divide" 0).1⟩

/-- C3 (code bug): the constructor sweep installs `signal.SIG_DFL`, not
`timeout_handler`, before arming its alarm (test_generator_methods.py
lines 126 and 170), so a genuine deadline expiry there cannot surface as
a catchable `TimeoutException` — the process takes SIGALRM's default
action instead of skipping the candidate and continuing.  Every other
alarmed region installs `timeout_handler`. -/
theorem C3_constructor_alarm_installs_sig_dfl :
    installedHandler .ctorEdge = .sigDfl ∧
    installedHandler .ctorRandom = .sigDfl ∧
    expiryRaisesCatchableTimeout .ctorEdge = false ∧
    expiryRaisesCatchableTimeout .ctorRandom = false ∧
    installedHandler .funcEdge = .timeoutHandler ∧
    installedHandler .funcRandom = .timeoutHandler ∧
    installedHandler .methodNoArg = .timeoutHandler ∧
    installedHandler .methodEdge = .timeoutHandler ∧
    installedHandler .methodRandom = .timeoutHandler ∧
    installedHandler .propGetter = .timeoutHandler ∧
    installedHandler .propSetterEdge = .timeoutHandler ∧
    installedHandler .propSetterRandom = .timeoutHandler := by
  refine ⟨rfl, rfl, rfl, rfl, rfl, rfl, rfl, rfl, rfl, rfl, rfl, rfl⟩

/-- C9: When the declared type names the class under analysis, value
synthesis builds one value per constructor parameter (each generated
without the class context, hence without further self-recursion) and
returns the constructed instance; if construction raises, it returns a
null value instead of propagating the failure. -/
theorem C9_self_referential_constructor (cls : ClassUnderTest) (pt : PyType)
    (gv : Nat → PyVal) (c : Nat)
    (hname : typeName pt = some cls.name) (hinfo : cls.hasCtorInfo = true) :
    (∀ v, cls.construct (genCtorValues cls.ctorParamTys gv c).1 = .ok v →
      generateValueForType (some cls) pt gv c =
        (v, (genCtorValues cls.ctorParamTys gv c).2)) ∧
    (∀ k, cls.construct (genCtorValues cls.ctorParamTys gv c).1 = .error k →
      generateValueForType (some cls) pt gv c =
        (PyVal.none, (genCtorValues cls.ctorParamTys gv c).2)) := by
  constructor <;> intro x h <;> simp [generateValueForType, hname, hinfo, h]

/-- Witness for C9 on a concrete one-parameter self-referential class. -/
theorem C9_self_referential_constructor_witness :
    (typeName (PyType.userClass "Node") =
      some (ClassUnderTest.mk "Node" true [PyType.int]
        (fun _ => .ok (PyVal.obj (some "Node")))).name) ∧
    generateValueForType
        (some (ClassUnderTest.mk "Node" true [PyType.int]
          (fun _ => .ok (PyVal.obj (some "Node")))))
        (PyType.userClass "Node") (fun _ => PyVal.int 7) 0 =
      (PyVal.obj (some "Node"), 1) :=
  ⟨rfl,
   (C9_self_referential_constructor
     (ClassUnderTest.mk "Node" true [PyType.int]
       (fun _ => .ok (PyVal.obj (some "Node"))))
     (PyType.userClass "Node") (fun _ => PyVal.int 7) 0 rfl rfl).1
     (PyVal.obj (some "Node")) rfl⟩

/-- If the dispatch records nothing for any candidate, the function
edge loop emits no case. -/
theorem funcEdgeLoop_nil (oracle : List PyVal → Outcome) (gv : Nat → PyVal)
    (ptys : List PyType)
    (h : ∀ inputs, processFuncOutcome inputs (oracle inputs) = Option.none) :
    ∀ cands c, (funcEdgeLoop oracle gv ptys cands c).1 = [] := by
  intro cands
  induction cands with
  | nil => intro c; rfl
  | cons p rest ih =>
    intro c
    obtain ⟨idx, e⟩ := p
    simp [funcEdgeLoop, h, ih]

theorem funcRandomLoop_nil (oracle : List PyVal → Outcome) (gv : Nat → PyVal)
    (ptys : List PyType)
    (h : ∀ inputs, processFuncOutcome inputs (oracle inputs) = Option.none) :
    ∀ n c, (funcRandomLoop oracle gv ptys n c).1 = [] := by
  intro n
  induction n with
  | zero => intro c; rfl
  | succ n ih =>
    intro c
    simp [funcRandomLoop, h, ih]

theorem dedupEdgeLoop_nil (proc : List PyVal → Option ClassMethodTestCase)
    (gv : Nat → PyVal) (ptys : List PyType)
    (h : ∀ inputs, proc inputs = Option.none) :
    ∀ cands used c, (dedupEdgeLoop proc gv ptys cands used c).cases = [] := by
  intro cands
  induction cands with
  | nil => intro used c; rfl
  | cons p rest ih =>
    intro used c
    obtain ⟨idx, e⟩ := p
    simp only [dedupEdgeLoop]
    split
    · exact ih _ _
    · simp [h, ih]

theorem ctorRandomLoop_nil (construct : List PyVal → Except String Unit)
    (gv : Nat → PyVal) (ctorTys : List PyType)
    (h : ∀ inputs, processCtorOutcome inputs (construct inputs) = Option.none) :
    ∀ n c, (ctorRandomLoop construct gv ctorTys n c).1 = [] := by
  intro n
  induction n with
  | zero => intro c; rfl
  | succ n ih =>
    intro c
    simp [ctorRandomLoop, h, ih]

theorem dedupRandomLoop_nil (proc : List PyVal → Option ClassMethodTestCase)
    (gv : Nat → PyVal) (ptys : List PyType)
    (h : ∀ inputs, proc inputs = Option.none) :
    ∀ n used c, (dedupRandomLoop proc gv ptys n used c).cases = [] := by
  intro n
  induction n with
  | zero => intro used c; rfl
  | succ n ih =>
    intro used c
    simp only [dedupRandomLoop]
    split
    · exact ih _ _
    · simp [h, ih]

/-- C10 counterexample: the zero-parameter constructor path records the
engine's own timeout exception as an ordinary expected-error case — its
`try/except Exception` block (test_generator_methods.py lines 72-94)
has no timeout branch, so a target `__init__` raising
`TimeoutException` is NOT silently discarded there. -/
theorem C10_counterexample :
    ctorGen (fun _ => .error timeoutName) [] (fun _ => PyVal.none) 5 =
      [⟨[], "__init__", [], PyVal.none, some timeoutName, false⟩] := rfl

/-- C10 (amended): in every candidate path that carries the
`except TimeoutException` branch — free functions (both phases), the
parameterized constructor phases, methods (all three branches), the
property getter and setter — a raised `TimeoutException` is discarded
before the general error branch: nothing is recorded and no case can
carry the timeout kind.  Only the zero-parameter constructor branch
lacks the timeout branch (see the counterexample). -/
theorem C10_timeout_kind_discarded :
    (∀ inputs, processFuncOutcome inputs (.raised timeoutName) = Option.none) ∧
    (∀ name ctorIns inputs,
      processMethodOutcome name ctorIns inputs (.raised timeoutName) = Option.none) ∧
    (∀ name ctorIns,
      processGetterOutcome name ctorIns (.raised timeoutName) = Option.none) ∧
    (∀ ctorIns, processCtorOutcome ctorIns (.error timeoutName) = Option.none) ∧
    (∀ ptys gv n,
      generate_test_cases ptys (fun _ => .raised timeoutName) gv n = []) ∧
    (∀ name ctorIns ptys invoke gv n c0,
      (∀ a b, invoke a b = Outcome.raised timeoutName) →
      methodSweep name ctorIns ptys invoke gv n c0 = []) ∧
    (∀ ctorTys gv n, ctorTys ≠ [] →
      ctorGen (fun _ => .error timeoutName) ctorTys gv n = []) := by
  have hf : ∀ inputs : List PyVal,
      processFuncOutcome inputs (.raised timeoutName) = Option.none := by
    intro inputs; simp [processFuncOutcome]
  have hm : ∀ (name : String) (ctorIns inputs : List PyVal),
      processMethodOutcome name ctorIns inputs (.raised timeoutName) = Option.none := by
    intro name ctorIns inputs; simp [processMethodOutcome]
  have hg : ∀ (name : String) (ctorIns : List PyVal),
      processGetterOutcome name ctorIns (.raised timeoutName) = Option.none := by
    intro name ctorIns; simp [processGetterOutcome]
  have hc : ∀ ctorIns : List PyVal,
      processCtorOutcome ctorIns (.error timeoutName) = Option.none := by
    intro ctorIns; simp [processCtorOutcome]
  refine ⟨hf, hm, hg, hc, ?_, ?_, ?_⟩
  · intro ptys gv n
    have h1 := funcEdgeLoop_nil (fun _ => .raised timeoutName) gv ptys
      (fun inputs => hf inputs)
    have h2 := funcRandomLoop_nil (fun _ => .raised timeoutName) gv ptys
      (fun inputs => hf inputs)
    simp [generate_test_cases, h1, h2]
  · intro name ctorIns ptys invoke gv n c0 hinv
    have hproc : ∀ inputs,
        processMethodOutcome name ctorIns inputs (invoke ctorIns inputs) =
          Option.none := by
      intro inputs; rw [hinv]; exact hm _ _ _
    have h1 := dedupEdgeLoop_nil
      (fun inputs => processMethodOutcome name ctorIns inputs (invoke ctorIns inputs))
      gv ptys hproc
    have h2 := dedupRandomLoop_nil
      (fun inputs => processMethodOutcome name ctorIns inputs (invoke ctorIns inputs))
      gv ptys hproc
    unfold methodSweep
    split
    · simp [hinv, hm]
    · simp [h1, h2]
  · intro ctorTys gv n hne
    have hne' : ctorTys.isEmpty = false := by
      cases ctorTys with
      | nil => exact absurd rfl hne
      | cons t ts => rfl
    have h1 := dedupEdgeLoop_nil
      (fun inputs => processCtorOutcome inputs (Except.error timeoutName))
      gv ctorTys (fun inputs => hc inputs)
    have h2 := ctorRandomLoop_nil (fun _ => Except.error timeoutName) gv ctorTys
      (fun inputs => hc inputs)
    simp [ctorGen, hne', h1, h2]

/-- Witness for C10's amended statement: a one-parameter constructor
whose every invocation raises `TimeoutException` produces no case. -/
theorem C10_timeout_kind_discarded_witness :
    ([PyType.int] ≠ ([] : List PyType)) ∧
    ctorGen (fun _ => .error timeoutName) [PyType.int] (fun _ => PyVal.int 0) 5 = [] :=
  ⟨by decide,
   C10_timeout_kind_discarded.2.2.2.2.2.2 [PyType.int] (fun _ => PyVal.int 0) 5
     (by decide)⟩

/-- C6: when a class can be instantiated neither with no arguments nor
with synthesized constructor arguments, the instance-method generator
records exactly one constructor-failure case carrying the construction
fault and produces nothing else for that method, while class-bound and
no-instance methods run the full sweep regardless of any constructor
behaviour, invoking through the class. -/
theorem C6_construction_failure (mk : List PyVal → Except String Unit)
    (ctorTys : List PyType) (name : String) (ptys : List PyType)
    (invoke : List PyVal → List PyVal → Outcome) (gv : Nat → PyVal) (n : Nat)
    (k0 k : String)
    (h0 : mk [] = .error k0)
    (h1 : mk (buildRandomInputs gv ctorTys 0).1 = .error k) :
    methodGen .instanceM mk true ctorTys name ptys invoke gv n =
      [⟨(buildRandomInputs gv ctorTys 0).1, name, [], PyVal.none, some k, false⟩] ∧
    (∀ (mk' : List PyVal → Except String Unit) (hinfo' : Bool)
        (ctorTys' : List PyType),
      methodGen .classM mk' hinfo' ctorTys' name ptys invoke gv n =
        methodSweep name [] ptys invoke gv n 0) ∧
    (∀ (mk' : List PyVal → Except String Unit) (hinfo' : Bool)
        (ctorTys' : List PyType),
      methodGen .staticM mk' hinfo' ctorTys' name ptys invoke gv n =
        methodSweep name [] ptys invoke gv n 0) := by
  refine ⟨?_, fun _ _ _ => rfl, fun _ _ _ => rfl⟩
  simp [methodGen, h0, h1, ctorFailCase]

/-- Witness for C6 on a concretely unconstructible class. -/
theorem C6_construction_failure_witness :
    ((fun _ : List PyVal => (Except.error "ValueError" : Except String Unit)) [] =
      .error "ValueError") ∧
    methodGen .instanceM (fun _ => .error "ValueError") true [PyType.int] "m"
        [PyType.int] (fun _ _ => .returned PyVal.none) (fun _ => PyVal.int 0) 3 =
      [⟨[PyVal.int 0], "m", [], PyVal.none, some "ValueError", false⟩] :=
  ⟨rfl,
   (C6_construction_failure (fun _ => .error "ValueError") [PyType.int] "m"
     [PyType.int] (fun _ _ => .returned PyVal.none) (fun _ => PyVal.int 0) 3
     "ValueError" "ValueError" rfl rfl).1⟩

/-- Two setter bodies with the same state behaviour (possibly different
return values) give the same per-candidate outcome: `runSetter` never
consults the setter's return value. -/
theorem runSetter_congr {σ : Type} (mk : List PyVal → Except String σ)
    (setRet setRet' : σ → PyVal → Except String (σ × PyVal))
    (get : σ → Except String PyVal)
    (hsame : ∀ t u, (setRet t u).map Prod.fst = (setRet' t u).map Prod.fst) :
    ∀ ctorIns v, runSetter mk setRet get ctorIns v =
      runSetter mk setRet' get ctorIns v := by
  intro ctorIns v
  unfold runSetter
  cases hmk : mk ctorIns with
  | error k => rfl
  | ok s =>
    show writeThenRead setRet get s v = writeThenRead setRet' get s v
    have h := hsame s v
    unfold writeThenRead
    cases hs : setRet s v with
    | error k =>
      cases hs' : setRet' s v with
      | error k' =>
        rw [hs, hs'] at h
        simp only [Except.map] at h
        cases h
        rfl
      | ok p' =>
        rw [hs, hs'] at h
        simp [Except.map] at h
    | ok p =>
      cases hs' : setRet' s v with
      | error k' =>
        rw [hs, hs'] at h
        simp [Except.map] at h
      | ok p' =>
        rw [hs, hs'] at h
        simp only [Except.map, Except.ok.injEq] at h
        obtain ⟨s1, r1⟩ := p
        obtain ⟨s1', r1'⟩ := p'
        simp only at h
        subst h
        rfl

theorem setterEdgeLoop_congr (proc proc' : PyVal → Option ClassMethodTestCase)
    (h : ∀ v, proc v = proc' v) :
    ∀ vals used, setterEdgeLoop proc vals used = setterEdgeLoop proc' vals used := by
  intro vals
  induction vals with
  | nil => intro used; rfl
  | cons v rest ih =>
    intro used
    simp only [setterEdgeLoop]
    split
    · exact ih _
    · rw [ih, h]

theorem setterRandomLoop_congr (proc proc' : PyVal → Option ClassMethodTestCase)
    (gv : Nat → PyVal) (h : ∀ v, proc v = proc' v) :
    ∀ n used c, setterRandomLoop proc gv n used c =
      setterRandomLoop proc' gv n used c := by
  intro n
  induction n with
  | zero => intro used c; rfl
  | succ n ih =>
    intro used c
    simp only [setterRandomLoop]
    split
    · exact ih _ _
    · rw [ih, h]

/-- C7: a setter case for value `x` constructs a fresh instance, writes
`x` through the setter, reads back through the getter, and records the
read-back value as the expected output — never the setter's own return
value: the whole generator output is invariant under changing what the
setter returns. -/
theorem C7_setter_read_after_write {σ : Type}
    (mk : List PyVal → Except String σ)
    (setRet setRet' : σ → PyVal → Except String (σ × PyVal))
    (get : σ → Except String PyVal) (ctorIns : List PyVal) (v : PyVal)
    (s s' : σ) (r w : PyVal) (propName : String)
    (hmk : mk ctorIns = .ok s) (hset : setRet s v = .ok (s', r))
    (hget : get s' = .ok w)
    (hsame : ∀ t u, (setRet t u).map Prod.fst = (setRet' t u).map Prod.fst) :
    runSetter mk setRet get ctorIns v = .returned w ∧
    processMethodOutcome ("set_" ++ propName) ctorIns [v]
        (runSetter mk setRet get ctorIns v) =
      some ⟨ctorIns, "set_" ++ propName, [v], w, Option.none, false⟩ ∧
    (∀ (hasCtorInfo : Bool) (ctorTys : List PyType) (propType : PyType)
        (gv : Nat → PyVal) (n : Nat),
      setterGen mk hasCtorInfo ctorTys propName propType setRet get gv n =
        setterGen mk hasCtorInfo ctorTys propName propType setRet' get gv n) := by
  have hrun : runSetter mk setRet get ctorIns v = .returned w := by
    unfold runSetter
    rw [hmk]
    show writeThenRead setRet get s v = .returned w
    unfold writeThenRead
    rw [hset]
    show readBack get s' = .returned w
    unfold readBack
    rw [hget]
  refine ⟨hrun, by rw [hrun]; rfl, ?_⟩
  intro hasCtorInfo ctorTys propType gv n
  unfold setterGen
  cases hres : resolveInstance mk hasCtorInfo ctorTys gv 0 with
  | mk fst snd =>
    cases fst with
    | none => rfl
    | some p =>
      obtain ⟨s0, ci⟩ := p
      have hproc : ∀ u,
          processMethodOutcome ("set_" ++ propName) ci [u]
            (runSetter mk setRet get ci u) =
          processMethodOutcome ("set_" ++ propName) ci [u]
            (runSetter mk setRet' get ci u) := by
        intro u
        rw [runSetter_congr mk setRet setRet' get hsame]
      simp only [setterEdgeLoop_congr _ _ hproc, setterRandomLoop_congr _ _ gv hproc]

/-- Witness for C7: a value-property class whose setter returns a junk
value; the recorded expected output is the read-back `5`, for both
setter bodies. -/
theorem C7_setter_read_after_write_witness :
    ((fun _ : List PyVal => (Except.ok (PyVal.int 0) : Except String PyVal)) [] =
      .ok (PyVal.int 0)) ∧
    runSetter (fun _ => .ok (PyVal.int 0))
        (fun _ u => .ok (u, PyVal.none)) (fun t => .ok t) [] (PyVal.int 5) =
      .returned (PyVal.int 5) ∧
    (∀ (hasCtorInfo : Bool) (ctorTys : List PyType) (propType : PyType)
        (gv : Nat → PyVal) (n : Nat),
      setterGen (fun _ => .ok (PyVal.int 0)) hasCtorInfo ctorTys "value" propType
          (fun _ u => .ok (u, PyVal.none)) (fun t => .ok t) gv n =
        setterGen (fun _ => .ok (PyVal.int 0)) hasCtorInfo ctorTys "value" propType
          (fun _ u => .ok (u, PyVal.int 42)) (fun t => .ok t) gv n) :=
  ⟨rfl,
   (C7_setter_read_after_write (fun _ => .ok (PyVal.int 0))
     (fun _ u => .ok (u, PyVal.none)) (fun _ u => .ok (u, PyVal.int 42))
     (fun t => .ok t) [] (PyVal.int 5) (PyVal.int 0) (PyVal.int 5) PyVal.none
     (PyVal.int 5) "value" rfl rfl rfl (fun _ _ => rfl)).1,
   (C7_setter_read_after_write (fun _ => .ok (PyVal.int 0))
     (fun _ u => .ok (u, PyVal.none)) (fun _ u => .ok (u, PyVal.int 42))
     (fun t => .ok t) [] (PyVal.int 5) (PyVal.int 0) (PyVal.int 5) PyVal.none
     (PyVal.int 5) "value" rfl rfl rfl (fun _ _ => rfl)).2.2⟩

/-! ### Deduplication invariants (for C1) -/

theorem processMethodOutcome_method_inputs {name : String}
    {ctorIns inputs : List PyVal} {o : Outcome} {c' : ClassMethodTestCase}
    (h : processMethodOutcome name ctorIns inputs o = some c') :
    c'.method_inputs = inputs := by
  cases o with
  | returned v => cases h; rfl
  | raised k =>
    by_cases hk : k = timeoutName
    · simp [processMethodOutcome, hk] at h
    · simp only [processMethodOutcome, hk, if_false, Option.some.injEq] at h
      rw [← h]

theorem processCtorOutcome_constructor_inputs {ctorIns : List PyVal}
    {r : Except String Unit} {c' : ClassMethodTestCase}
    (h : processCtorOutcome ctorIns r = some c') :
    c'.constructor_inputs = ctorIns := by
  cases r with
  | ok u => cases h; rfl
  | error k =>
    by_cases hk : k = timeoutName
    · simp [processCtorOutcome, hk] at h
    · simp only [processCtorOutcome, hk, if_false, Option.some.injEq] at h
      rw [← h]

/-- What one deduplicated sweep does to its state: the used list only
grows, recorded case inputs form a sublist of the new used entries,
every new used entry is inequivalent to every pre-existing one, and the
new entries are pairwise inequivalent (each later one tested against
each earlier one). -/
theorem dedupEdgeLoop_spec (proc : List PyVal → Option ClassMethodTestCase)
    (gv : Nat → PyVal) (ptys : List PyType)
    (proj : ClassMethodTestCase → List PyVal)
    (hproc : ∀ i c', proc i = some c' → proj c' = i) :
    ∀ cands used c, ∃ newUsed,
      (dedupEdgeLoop proc gv ptys cands used c).used = used ++ newUsed ∧
      ((dedupEdgeLoop proc gv ptys cands used c).cases.map proj).Sublist newUsed ∧
      (∀ u ∈ used, ∀ v ∈ newUsed, areFunEquiv v u = false) ∧
      newUsed.Pairwise (fun a b => areFunEquiv b a = false) := by
  intro cands
  induction cands with
  | nil =>
    intro used c
    exact ⟨[], by simp [dedupEdgeLoop], by simp [dedupEdgeLoop], by simp, by simp⟩
  | cons pe rest ih =>
    intro used c
    obtain ⟨idx, e⟩ := pe
    simp only [dedupEdgeLoop]
    rcases hbi : buildEdgeInputs gv e ptys idx c with ⟨inputs, c'⟩
    cases hdup : used.any (fun u => areFunEquiv inputs u) with
    | true =>
      simp only [hdup, if_true]
      exact ih used c'
    | false =>
      simp only [hdup, Bool.false_eq_true, if_false]
      obtain ⟨newUsed, hU, hS, hC, hP⟩ := ih (used ++ [inputs]) c'
      have hfresh : ∀ u ∈ used, areFunEquiv inputs u = false := by
        intro u hu
        have := List.any_eq_false.mp (by rw [hdup]) u hu
        simpa using this
      refine ⟨inputs :: newUsed, ?_, ?_, ?_, ?_⟩
      · rw [hU, List.append_assoc, List.singleton_append]
      · rw [List.map_append]
        cases hpi : proc inputs with
        | none =>
          simp only [hpi, Option.toList_none, List.map_nil, List.nil_append]
          exact hS.cons inputs
        | some tc =>
          simp only [hpi, Option.toList_some, List.map_cons, List.map_nil,
            List.singleton_append, hproc inputs tc hpi]
          exact hS.cons₂ inputs
      · intro u hu v hv
        rcases List.mem_cons.mp hv with rfl | hv'
        · exact hfresh u hu
        · exact hC u (List.mem_append_left _ hu) v hv'
      · refine List.Pairwise.cons ?_ hP
        intro v hv
        exact hC inputs (by simp) v hv

theorem dedupRandomLoop_spec (proc : List PyVal → Option ClassMethodTestCase)
    (gv : Nat → PyVal) (ptys : List PyType)
    (proj : ClassMethodTestCase → List PyVal)
    (hproc : ∀ i c', proc i = some c' → proj c' = i) :
    ∀ n used c, ∃ newUsed,
      (dedupRandomLoop proc gv ptys n used c).used = used ++ newUsed ∧
      ((dedupRandomLoop proc gv ptys n used c).cases.map proj).Sublist newUsed ∧
      (∀ u ∈ used, ∀ v ∈ newUsed, areFunEquiv v u = false) ∧
      newUsed.Pairwise (fun a b => areFunEquiv b a = false) := by
  intro n
  induction n with
  | zero =>
    intro used c
    exact ⟨[], by simp [dedupRandomLoop], by simp [dedupRandomLoop], by simp, by simp⟩
  | succ n ih =>
    intro used c
    simp only [dedupRandomLoop]
    rcases hbi : buildRandomInputs gv ptys c with ⟨inputs, c'⟩
    cases hdup : used.any (fun u => areFunEquiv inputs u) with
    | true =>
      simp only [hdup, if_true]
      exact ih used c'
    | false =>
      simp only [hdup, Bool.false_eq_true, if_false]
      obtain ⟨newUsed, hU, hS, hC, hP⟩ := ih (used ++ [inputs]) c'
      have hfresh : ∀ u ∈ used, areFunEquiv inputs u = false := by
        intro u hu
        have := List.any_eq_false.mp (by rw [hdup]) u hu
        simpa using this
      refine ⟨inputs :: newUsed, ?_, ?_, ?_, ?_⟩
      · rw [hU, List.append_assoc, List.singleton_append]
      · rw [List.map_append]
        cases hpi : proc inputs with
        | none =>
          simp only [hpi, Option.toList_none, List.map_nil, List.nil_append]
          exact hS.cons inputs
        | some tc =>
          simp only [hpi, Option.toList_some, List.map_cons, List.map_nil,
            List.singleton_append, hproc inputs tc hpi]
          exact hS.cons₂ inputs
      · intro u hu v hv
        rcases List.mem_cons.mp hv with rfl | hv'
        · exact hfresh u hu
        · exact hC u (List.mem_append_left _ hu) v hv'
      · refine List.Pairwise.cons ?_ hP
        intro v hv
        exact hC inputs (by simp) v hv

theorem setterEdgeLoop_spec (proc : PyVal → Option ClassMethodTestCase)
    (proj : ClassMethodTestCase → List PyVal)
    (hproc : ∀ v c', proc v = some c' → proj c' = [v]) :
    ∀ vals used, ∃ newUsed,
      (setterEdgeLoop proc vals used).2 = used ++ newUsed ∧
      ((setterEdgeLoop proc vals used).1.map proj).Sublist
        (newUsed.map (fun v => [v])) ∧
      (∀ u ∈ used, ∀ v ∈ newUsed, areFunEquiv [v] [u] = false) ∧
      newUsed.Pairwise (fun a b => areFunEquiv [b] [a] = false) := by
  intro vals
  induction vals with
  | nil =>
    intro used
    exact ⟨[], by simp [setterEdgeLoop], by simp [setterEdgeLoop], by simp, by simp⟩
  | cons v rest ih =>
    intro used
    simp only [setterEdgeLoop]
    cases hdup : used.any (fun u => areFunEquiv [v] [u]) with
    | true =>
      simp only [hdup, if_true]
      exact ih used
    | false =>
      simp only [hdup, Bool.false_eq_true, if_false]
      obtain ⟨newUsed, hU, hS, hC, hP⟩ := ih (used ++ [v])
      have hfresh : ∀ u ∈ used, areFunEquiv [v] [u] = false := by
        intro u hu
        have := List.any_eq_false.mp (by rw [hdup]) u hu
        simpa using this
      refine ⟨v :: newUsed, ?_, ?_, ?_, ?_⟩
      · rw [hU, List.append_assoc, List.singleton_append]
      · rw [List.map_append, List.map_cons]
        cases hpi : proc v with
        | none =>
          simp only [hpi, Option.toList_none, List.map_nil, List.nil_append]
          exact hS.cons [v]
        | some tc =>
          simp only [hpi, Option.toList_some, List.map_cons, List.map_nil,
            List.singleton_append, hproc v tc hpi]
          exact hS.cons₂ [v]
      · intro u hu w hw
        rcases List.mem_cons.mp hw with rfl | hw'
        · exact hfresh u hu
        · exact hC u (List.mem_append_left _ hu) w hw'
      · refine List.Pairwise.cons ?_ hP
        intro w hw
        exact hC v (by simp) w hw

theorem setterRandomLoop_spec (proc : PyVal → Option ClassMethodTestCase)
    (gv : Nat → PyVal) (proj : ClassMethodTestCase → List PyVal)
    (hproc : ∀ v c', proc v = some c' → proj c' = [v]) :
    ∀ n used c, ∃ newUsed,
      (setterRandomLoop proc gv n used c).2 = used ++ newUsed ∧
      ((setterRandomLoop proc gv n used c).1.map proj).Sublist
        (newUsed.map (fun v => [v])) ∧
      (∀ u ∈ used, ∀ v ∈ newUsed, areFunEquiv [v] [u] = false) ∧
      newUsed.Pairwise (fun a b => areFunEquiv [b] [a] = false) := by
  intro n
  induction n with
  | zero =>
    intro used c
    exact ⟨[], by simp [setterRandomLoop], by simp [setterRandomLoop], by simp, by simp⟩
  | succ n ih =>
    intro used c
    simp only [setterRandomLoop]
    cases hdup : used.any (fun u => areFunEquiv [gv c] [u]) with
    | true =>
      simp only [hdup, if_true]
      exact ih used (c + 1)
    | false =>
      simp only [hdup, Bool.false_eq_true, if_false]
      obtain ⟨newUsed, hU, hS, hC, hP⟩ := ih (used ++ [gv c]) (c + 1)
      have hfresh : ∀ u ∈ used, areFunEquiv [gv c] [u] = false := by
        intro u hu
        have := List.any_eq_false.mp (by rw [hdup]) u hu
        simpa using this
      refine ⟨gv c :: newUsed, ?_, ?_, ?_, ?_⟩
      · rw [hU, List.append_assoc, List.singleton_append]
      · rw [List.map_append, List.map_cons]
        cases hpi : proc (gv c) with
        | none =>
          simp only [hpi, Option.toList_none, List.map_nil, List.nil_append]
          exact hS.cons [gv c]
        | some tc =>
          simp only [hpi, Option.toList_some, List.map_cons, List.map_nil,
            List.singleton_append, hproc (gv c) tc hpi]
          exact hS.cons₂ [gv c]
      · intro u hu w hw
        rcases List.mem_cons.mp hw with rfl | hw'
        · exact hfresh u hu
        · exact hC u (List.mem_append_left _ hu) w hw'
      · refine List.Pairwise.cons ?_ hP
        intro w hw
        exact hC (gv c) (by simp) w hw

/-- Both phases of a deduplicated sweep (shared used list) together
yield pairwise-inequivalent recorded inputs. -/
theorem dedup_two_phase_pairwise (proc : List PyVal → Option ClassMethodTestCase)
    (gv : Nat → PyVal) (ptys : List PyType) (cands : List (Nat × PyVal))
    (n c0 : Nat) (proj : ClassMethodTestCase → List PyVal)
    (hproc : ∀ i c', proc i = some c' → proj c' = i) :
    (((dedupEdgeLoop proc gv ptys cands [] c0).cases ++
      (dedupRandomLoop proc gv ptys n (dedupEdgeLoop proc gv ptys cands [] c0).used
        (dedupEdgeLoop proc gv ptys cands [] c0).ctr).cases).map proj).Pairwise
      (fun a b => areFunEquiv b a = false) := by
  obtain ⟨newE, hUe, hSe, _, hPe⟩ :=
    dedupEdgeLoop_spec proc gv ptys proj hproc cands [] c0
  obtain ⟨newR, _, hSr, hCr, hPr⟩ :=
    dedupRandomLoop_spec proc gv ptys proj hproc n
      (dedupEdgeLoop proc gv ptys cands [] c0).used
      (dedupEdgeLoop proc gv ptys cands [] c0).ctr
  rw [List.map_append]
  refine List.Pairwise.sublist (hSe.append hSr) ?_
  rw [List.pairwise_append]
  refine ⟨hPe, hPr, ?_⟩
  intro a ha b hb
  refine hCr a ?_ b hb
  rw [hUe, List.nil_append]
  exact ha

/-- Every case list the method generator emits has pairwise
non-equivalent method input tuples. -/
theorem methodGen_pairwise (mt : MethodKind) (mk : List PyVal → Except String Unit)
    (hinfo : Bool) (ctorTys : List PyType) (name : String) (ptys : List PyType)
    (invoke : List PyVal → List PyVal → Outcome) (gv : Nat → PyVal) (n : Nat) :
    ((methodGen mt mk hinfo ctorTys name ptys invoke gv n).map
      ClassMethodTestCase.method_inputs).Pairwise
        (fun a b => areFunEquiv b a = false) := by
  have hsweep : ∀ ctorIns c0,
      ((methodSweep name ctorIns ptys invoke gv n c0).map
        ClassMethodTestCase.method_inputs).Pairwise
          (fun a b => areFunEquiv b a = false) := by
    intro ctorIns c0
    unfold methodSweep
    split
    · cases hpo : processMethodOutcome name ctorIns [] (invoke ctorIns []) with
      | none => simp [hpo]
      | some tc => simp [hpo]
    · exact dedup_two_phase_pairwise
        (fun inputs => processMethodOutcome name ctorIns inputs (invoke ctorIns inputs))
        gv ptys (edgeCandidates ptys) n c0 ClassMethodTestCase.method_inputs
        (fun i c' h => processMethodOutcome_method_inputs h)
  unfold methodGen
  cases mt with
  | instanceM =>
    cases hmk0 : mk [] with
    | ok u => exact hsweep [] 0
    | error k0 =>
      cases hinfo with
      | false => simp
      | true =>
        simp only [if_true]
        rcases hbr : buildRandomInputs gv ctorTys 0 with ⟨ci, c1⟩
        cases hmk1 : mk ci with
        | ok u => exact hsweep ci c1
        | error k => simp [ctorFailCase]
  | classM => exact hsweep [] 0
  | staticM => exact hsweep [] 0

/-- Every case list the setter generator emits has pairwise
non-equivalent (singleton) input tuples. -/
theorem setterGen_pairwise {σ : Type} (mk : List PyVal → Except String σ)
    (hinfo : Bool) (ctorTys : List PyType) (propName : String) (propType : PyType)
    (setRet : σ → PyVal → Except String (σ × PyVal))
    (get : σ → Except String PyVal) (gv : Nat → PyVal) (n : Nat) :
    ((setterGen mk hinfo ctorTys propName propType setRet get gv n).map
      ClassMethodTestCase.method_inputs).Pairwise
        (fun a b => areFunEquiv b a = false) := by
  unfold setterGen
  cases hres : resolveInstance mk hinfo ctorTys gv 0 with
  | mk fst c0 =>
    cases fst with
    | none => simp
    | some p =>
      obtain ⟨s0, ci⟩ := p
      have hproc : ∀ v c',
          (fun v => processMethodOutcome ("set_" ++ propName) ci [v]
            (runSetter mk setRet get ci v)) v = some c' →
          ClassMethodTestCase.method_inputs c' = [v] :=
        fun v c' h => processMethodOutcome_method_inputs h
      obtain ⟨newE, hUe, hSe, _, hPe⟩ :=
        setterEdgeLoop_spec _ ClassMethodTestCase.method_inputs hproc
          (get_edge_cases_for_type propType) []
      obtain ⟨newR, _, hSr, hCr, hPr⟩ :=
        setterRandomLoop_spec _ gv ClassMethodTestCase.method_inputs hproc n
          (setterEdgeLoop (fun v => processMethodOutcome ("set_" ++ propName) ci [v]
            (runSetter mk setRet get ci v)) (get_edge_cases_for_type propType) []).2
          c0
      show ((((setterEdgeLoop (fun v => processMethodOutcome ("set_" ++ propName) ci [v]
            (runSetter mk setRet get ci v)) (get_edge_cases_for_type propType) []).1 ++
          (setterRandomLoop (fun v => processMethodOutcome ("set_" ++ propName) ci [v]
            (runSetter mk setRet get ci v)) gv n
            (setterEdgeLoop (fun v => processMethodOutcome ("set_" ++ propName) ci [v]
              (runSetter mk setRet get ci v)) (get_edge_cases_for_type propType) []).2
            c0).1).map ClassMethodTestCase.method_inputs)).Pairwise
          (fun a b => areFunEquiv b a = false)
      rw [List.map_append]
      refine List.Pairwise.sublist (hSe.append hSr) ?_
      rw [← List.map_append, List.pairwise_map, List.pairwise_append]
      refine ⟨hPe, hPr, ?_⟩
      intro a ha b hb
      refine hCr a ?_ b hb
      rw [hUe, List.nil_append]
      exact ha

/-- C1 counterexample: for a zero-parameter free function the random
phase records one case per iteration with the same (empty) input tuple
and no dedup check — five distinct recorded cases of the same callable,
pairwise EQUIVALENT under the filter. -/
theorem C1_counterexample :
    (generate_test_cases [] (fun _ => .returned (.int 7)) (fun _ => PyVal.none) 5).map
        TestCase.inputs = [[], [], [], [], []] ∧
    areFunEquiv [] [] = true :=
  ⟨rfl, rfl⟩

/-- C1 (amended): the method generator and the property-setter
generator record pairwise non-equivalent input tuples (each later tuple
tested against each earlier one), and so does the constructor
generator's boundary-sweep phase; the constructor random phase and the
free-function generator perform no such check. -/
theorem C1_dedup_by_generator :
    (∀ (mt : MethodKind) (mk : List PyVal → Except String Unit) (hinfo : Bool)
        (ctorTys : List PyType) (name : String) (ptys : List PyType)
        (invoke : List PyVal → List PyVal → Outcome) (gv : Nat → PyVal) (n : Nat),
      ((methodGen mt mk hinfo ctorTys name ptys invoke gv n).map
        ClassMethodTestCase.method_inputs).Pairwise
          (fun a b => areFunEquiv b a = false)) ∧
    (∀ (σ : Type) (mk : List PyVal → Except String σ) (hinfo : Bool)
        (ctorTys : List PyType) (propName : String) (propType : PyType)
        (setRet : σ → PyVal → Except String (σ × PyVal))
        (get : σ → Except String PyVal) (gv : Nat → PyVal) (n : Nat),
      ((setterGen mk hinfo ctorTys propName propType setRet get gv n).map
        ClassMethodTestCase.method_inputs).Pairwise
          (fun a b => areFunEquiv b a = false)) ∧
    (∀ (construct : List PyVal → Except String Unit) (ctorTys : List PyType)
        (gv : Nat → PyVal),
      (((dedupEdgeLoop (fun inputs => processCtorOutcome inputs (construct inputs))
          gv ctorTys (edgeCandidates ctorTys) [] 0).cases).map
        ClassMethodTestCase.constructor_inputs).Pairwise
          (fun a b => areFunEquiv b a = false)) := by
  refine ⟨fun mt mk hinfo ctorTys name ptys invoke gv n =>
    methodGen_pairwise mt mk hinfo ctorTys name ptys invoke gv n,
    fun σ mk hinfo ctorTys propName propType setRet get gv n =>
      setterGen_pairwise mk hinfo ctorTys propName propType setRet get gv n, ?_⟩
  intro construct ctorTys gv
  obtain ⟨newE, _, hSe, _, hPe⟩ :=
    dedupEdgeLoop_spec (fun inputs => processCtorOutcome inputs (construct inputs))
      gv ctorTys ClassMethodTestCase.constructor_inputs
      (fun i c' h => processCtorOutcome_constructor_inputs h)
      (edgeCandidates ctorTys) [] 0
  exact List.Pairwise.sublist hSe hPe

/-! ### Class-analyzer lemmas (for C2) -/

/-- C2 counterexample: analyzing `D(B)` where `B` defines method `m`
and property `p` and `D` shadows `p` with a plain method.  The analyzer
records `m` with `defined_in = "D"` although only `B` defines `m` in
its own namespace, and records `p` BOTH as a method (of `D`) and as a
property (of `B`) — so a member name is neither attributed to the
most-derived defining class nor confined to one category. -/
theorem C2_counterexample :
    (analyzeClass [exD, exB]).methods = [("m", "D"), ("p", "D")] ∧
    (analyzeClass [exD, exB]).properties = [("p", "B")] ∧
    ("m" ∉ exD.statics ∧ "m" ∉ exD.classms ∧ "m" ∉ exD.funcs ∧ "m" ∉ exD.props) ∧
    "m" ∈ exB.funcs := by
  refine ⟨by decide, by decide, by decide, by decide⟩

theorem ownKind_isSome_iff (n : PyClassNode) (x : String) :
    (ownKind n x).isSome = true ↔
      x ∈ n.statics ∨ x ∈ n.classms ∨ x ∈ n.funcs ∨ x ∈ n.props := by
  unfold ownKind
  by_cases h1 : x ∈ n.statics <;> by_cases h2 : x ∈ n.classms <;>
    by_cases h3 : x ∈ n.funcs <;> by_cases h4 : x ∈ n.props <;>
    simp [h1, h2, h3, h4]

theorem lookupKind_isSome_iff_visible (chain : List PyClassNode) (x : String) :
    (lookupKind chain x).isSome = true ↔ x ∈ visibleNames chain := by
  induction chain with
  | nil => simp [lookupKind, visibleNames]
  | cons n rest ih =>
    simp only [visibleNames, List.flatMap_cons, List.mem_dedup] at ih ⊢
    rw [lookupKind]
    cases hok : ownKind n x with
    | some k =>
      have : x ∈ n.statics ∨ x ∈ n.classms ∨ x ∈ n.funcs ∨ x ∈ n.props := by
        rw [← ownKind_isSome_iff]
        rw [hok]
        rfl
      simp only [Option.isSome_some, true_iff]
      rw [List.mem_append]
      left
      simpa [List.mem_append, or_assoc] using this
    | none =>
      have hnot : ¬(x ∈ n.statics ∨ x ∈ n.classms ∨ x ∈ n.funcs ∨ x ∈ n.props) := by
        rw [← ownKind_isSome_iff, hok]
        simp
      rw [ih, List.mem_append]
      constructor
      · intro h
        right
        exact h
      · rintro (h | h)
        · exact absurd (by simpa [List.mem_append, or_assoc] using h) hnot
        · exact h

theorem mem_funcNames_iff (chain : List PyClassNode) (x : String) :
    x ∈ funcNames chain ↔
      (lookupKind chain x = some .func ∨ lookupKind chain x = some .staticm) := by
  unfold funcNames
  rw [List.mem_filter]
  constructor
  · intro h
    simpa using h.2
  · intro h
    refine ⟨?_, by simpa using h⟩
    rw [← lookupKind_isSome_iff_visible]
    rcases h with h | h <;> rw [h] <;> rfl

theorem mem_propNames_iff (chain : List PyClassNode) (x : String) :
    x ∈ propNames chain ↔ lookupKind chain x = some .prop := by
  unfold propNames
  rw [List.mem_filter]
  constructor
  · intro h
    simpa using h.2
  · intro h
    refine ⟨?_, by simpa using h⟩
    rw [← lookupKind_isSome_iff_visible, h]
    rfl

theorem mem_map_pair (l : List String) (nm x d : String) :
    (x, d) ∈ l.map (fun y => (y, nm)) ↔ x ∈ l ∧ d = nm := by
  simp only [List.mem_map, Prod.mk.injEq]
  constructor
  · rintro ⟨a, ha, rfl, rfl⟩
    exact ⟨ha, rfl⟩
  · rintro ⟨hx, rfl⟩
    exact ⟨x, hx, rfl, rfl⟩

theorem pass1_statics_mem :
    ∀ (chain : List PyClassNode) (processed : List String) (x d : String),
      (x, d) ∈ (pass1 chain processed).1 ↔
        x ∉ processed ∧ firstSCDecl chain x = some (d, true) := by
  intro chain
  induction chain with
  | nil => intro processed x d; simp [pass1, firstSCDecl]
  | cons n rest ih =>
    intro processed x d
    simp only [pass1, List.mem_append, mem_map_pair, List.mem_filter,
      decide_eq_true_eq, firstSCDecl, ih]
    by_cases hs : x ∈ n.statics <;> by_cases hc : x ∈ n.classms <;>
      by_cases hp : x ∈ processed <;>
      simp [hs, hc, hp, eq_comm]

theorem pass1_classms_mem :
    ∀ (chain : List PyClassNode) (processed : List String) (x d : String),
      (x, d) ∈ (pass1 chain processed).2.1 ↔
        x ∉ processed ∧ firstSCDecl chain x = some (d, false) := by
  intro chain
  induction chain with
  | nil => intro processed x d; simp [pass1, firstSCDecl]
  | cons n rest ih =>
    intro processed x d
    simp only [pass1, List.mem_append, mem_map_pair, List.mem_filter,
      decide_eq_true_eq, firstSCDecl, ih]
    by_cases hs : x ∈ n.statics <;> by_cases hc : x ∈ n.classms <;>
      by_cases hp : x ∈ processed <;>
      simp [hs, hc, hp, eq_comm]

theorem pass1_processed_mem :
    ∀ (chain : List PyClassNode) (processed : List String) (x : String),
      x ∈ (pass1 chain processed).2.2 ↔
        x ∈ processed ∨ (firstSCDecl chain x).isSome := by
  intro chain
  induction chain with
  | nil => intro processed x; simp [pass1, firstSCDecl]
  | cons n rest ih =>
    intro processed x
    simp only [pass1, ih, List.mem_append, List.mem_filter, decide_eq_true_eq,
      firstSCDecl]
    by_cases hs : x ∈ n.statics <;> by_cases hc : x ∈ n.classms <;>
      by_cases hp : x ∈ processed <;>
      simp [hs, hc, hp]

theorem mem_or_eq_of_mem (l : List String) (y : String) (h : y ∈ l) (x : String) :
    x ∈ l ↔ x ∈ l ∨ x = y := by
  constructor
  · exact Or.inl
  · rintro (hx | rfl)
    · exact hx
    · exact h

theorem classifyFn_processedM (cur : String) (st : Pass2State) (y x : String) :
    x ∈ (classifyFn cur st y).processedM ↔ x ∈ st.processedM ∨ x = y := by
  unfold classifyFn
  split_ifs with h hd hi hpv
  · exact mem_or_eq_of_mem _ _ h x
  all_goals simp [List.mem_append]

theorem classifyFn_methods (cur : String) (st : Pass2State) (y x d : String) :
    (x, d) ∈ (classifyFn cur st y).methods ↔ (x, d) ∈ st.methods ∨
      (x = y ∧ y ∉ st.processedM ∧ isDunder y = false ∧ isPrivate y = false ∧
        d = cur) := by
  unfold classifyFn
  split_ifs with h hd hi hpv <;>
    simp_all [List.mem_append, Prod.mk.injEq]

theorem classifyFn_specials (cur : String) (st : Pass2State) (y x d : String) :
    (x, d) ∈ (classifyFn cur st y).special_methods ↔ (x, d) ∈ st.special_methods ∨
      (x = y ∧ y ∉ st.processedM ∧ isDunder y = true ∧ y ≠ "__init__" ∧
        d = cur) := by
  unfold classifyFn
  split_ifs with h hd hi hpv <;>
    simp_all [List.mem_append, Prod.mk.injEq]

theorem classifyFn_properties (cur : String) (st : Pass2State) (y : String) :
    (classifyFn cur st y).properties = st.properties := by
  unfold classifyFn
  split_ifs <;> rfl

theorem classifyFn_processedP (cur : String) (st : Pass2State) (y : String) :
    (classifyFn cur st y).processedP = st.processedP := by
  unfold classifyFn
  split_ifs <;> rfl

theorem classifyProp_properties (cur : String) (st : Pass2State) (y x d : String) :
    (x, d) ∈ (classifyProp cur st y).properties ↔ (x, d) ∈ st.properties ∨
      (x = y ∧ y ∉ st.processedP ∧ d = cur) := by
  unfold classifyProp
  split_ifs with h <;>
    simp_all [List.mem_append, Prod.mk.injEq]

theorem classifyProp_processedP (cur : String) (st : Pass2State) (y x : String) :
    x ∈ (classifyProp cur st y).processedP ↔ x ∈ st.processedP ∨ x = y := by
  unfold classifyProp
  split_ifs with h
  · exact mem_or_eq_of_mem _ _ h x
  · simp [List.mem_append]

theorem classifyProp_methods (cur : String) (st : Pass2State) (y : String) :
    (classifyProp cur st y).methods = st.methods := by
  unfold classifyProp
  split_ifs <;> rfl

theorem classifyProp_specials (cur : String) (st : Pass2State) (y : String) :
    (classifyProp cur st y).special_methods = st.special_methods := by
  unfold classifyProp
  split_ifs <;> rfl

theorem classifyProp_processedM (cur : String) (st : Pass2State) (y : String) :
    (classifyProp cur st y).processedM = st.processedM := by
  unfold classifyProp
  split_ifs <;> rfl

/-- Aggregate effect of the function loop over one visited class. -/
theorem foldl_classifyFn_spec (cur : String) :
    ∀ (names : List String) (st : Pass2State),
      (∀ x, x ∈ (names.foldl (classifyFn cur) st).processedM ↔
        x ∈ st.processedM ∨ x ∈ names) ∧
      (∀ x d, (x, d) ∈ (names.foldl (classifyFn cur) st).methods ↔
        (x, d) ∈ st.methods ∨ (x ∈ names ∧ x ∉ st.processedM ∧
          isDunder x = false ∧ isPrivate x = false ∧ d = cur)) ∧
      (∀ x d, (x, d) ∈ (names.foldl (classifyFn cur) st).special_methods ↔
        (x, d) ∈ st.special_methods ∨ (x ∈ names ∧ x ∉ st.processedM ∧
          isDunder x = true ∧ x ≠ "__init__" ∧ d = cur)) ∧
      (names.foldl (classifyFn cur) st).properties = st.properties ∧
      (names.foldl (classifyFn cur) st).processedP = st.processedP := by
  intro names
  induction names with
  | nil => intro st; refine ⟨by simp, by simp, by simp, rfl, rfl⟩
  | cons y names ih =>
    intro st
    obtain ⟨ihP, ihM, ihS, ihPr, ihPp⟩ := ih (classifyFn cur st y)
    refine ⟨?_, ?_, ?_, ?_, ?_⟩
    · intro x
      rw [List.foldl_cons, ihP, classifyFn_processedM]
      simp only [List.mem_cons]
      tauto
    · intro x d
      rw [List.foldl_cons, ihM, classifyFn_methods, classifyFn_processedM]
      simp only [List.mem_cons]
      constructor
      · rintro ((h | ⟨rfl, h2, h3, h4, h5⟩) | ⟨h1, h2, h3, h4, h5⟩)
        · exact Or.inl h
        · exact Or.inr ⟨Or.inl rfl, h2, h3, h4, h5⟩
        · exact Or.inr ⟨Or.inr h1, fun hx => h2 (Or.inl hx), h3, h4, h5⟩
      · rintro (h | ⟨(rfl | h1), h2, h3, h4, h5⟩)
        · exact Or.inl (Or.inl h)
        · exact Or.inl (Or.inr ⟨rfl, h2, h3, h4, h5⟩)
        · by_cases hxy : x = y
          · subst hxy
            exact Or.inl (Or.inr ⟨rfl, h2, h3, h4, h5⟩)
          · exact Or.inr ⟨h1, fun hx => hx.elim h2 hxy, h3, h4, h5⟩
    · intro x d
      rw [List.foldl_cons, ihS, classifyFn_specials, classifyFn_processedM]
      simp only [List.mem_cons]
      constructor
      · rintro ((h | ⟨rfl, h2, h3, h4, h5⟩) | ⟨h1, h2, h3, h4, h5⟩)
        · exact Or.inl h
        · exact Or.inr ⟨Or.inl rfl, h2, h3, h4, h5⟩
        · exact Or.inr ⟨Or.inr h1, fun hx => h2 (Or.inl hx), h3, h4, h5⟩
      · rintro (h | ⟨(rfl | h1), h2, h3, h4, h5⟩)
        · exact Or.inl (Or.inl h)
        · exact Or.inl (Or.inr ⟨rfl, h2, h3, h4, h5⟩)
        · by_cases hxy : x = y
          · subst hxy
            exact Or.inl (Or.inr ⟨rfl, h2, h3, h4, h5⟩)
          · exact Or.inr ⟨h1, fun hx => hx.elim h2 hxy, h3, h4, h5⟩
    · rw [List.foldl_cons, ihPr, classifyFn_properties]
    · rw [List.foldl_cons, ihPp, classifyFn_processedP]

/-- Aggregate effect of the property loop over one visited class. -/
theorem foldl_classifyProp_spec (cur : String) :
    ∀ (names : List String) (st : Pass2State),
      (∀ x, x ∈ (names.foldl (classifyProp cur) st).processedP ↔
        x ∈ st.processedP ∨ x ∈ names) ∧
      (∀ x d, (x, d) ∈ (names.foldl (classifyProp cur) st).properties ↔
        (x, d) ∈ st.properties ∨ (x ∈ names ∧ x ∉ st.processedP ∧ d = cur)) ∧
      (names.foldl (classifyProp cur) st).methods = st.methods ∧
      (names.foldl (classifyProp cur) st).special_methods = st.special_methods ∧
      (names.foldl (classifyProp cur) st).processedM = st.processedM := by
  intro names
  induction names with
  | nil => intro st; refine ⟨by simp, by simp, rfl, rfl, rfl⟩
  | cons y names ih =>
    intro st
    obtain ⟨ihP, ihPr, ihM, ihS, ihPm⟩ := ih (classifyProp cur st y)
    refine ⟨?_, ?_, ?_, ?_, ?_⟩
    · intro x
      rw [List.foldl_cons, ihP, classifyProp_processedP]
      simp only [List.mem_cons]
      tauto
    · intro x d
      rw [List.foldl_cons, ihPr, classifyProp_properties, classifyProp_processedP]
      simp only [List.mem_cons]
      constructor
      · rintro ((h | ⟨rfl, h2, h3⟩) | ⟨h1, h2, h3⟩)
        · exact Or.inl h
        · exact Or.inr ⟨Or.inl rfl, h2, h3⟩
        · exact Or.inr ⟨Or.inr h1, fun hx => h2 (Or.inl hx), h3⟩
      · rintro (h | ⟨(rfl | h1), h2, h3⟩)
        · exact Or.inl (Or.inl h)
        · exact Or.inl (Or.inr ⟨rfl, h2, h3⟩)
        · by_cases hxy : x = y
          · subst hxy
            exact Or.inl (Or.inr ⟨rfl, h2, h3⟩)
          · exact Or.inr ⟨h1, fun hx => hx.elim h2 hxy, h3⟩
    · rw [List.foldl_cons, ihM, classifyProp_methods]
    · rw [List.foldl_cons, ihS, classifyProp_specials]
    · rw [List.foldl_cons, ihPm, classifyProp_processedM]

theorem firstFuncVisible_cons (n : PyClassNode) (rest : List PyClassNode)
    (x : String) :
    firstFuncVisible (n :: rest) x =
      if x ∈ funcNames (n :: rest) then some n.name
      else firstFuncVisible rest x := by
  rw [firstFuncVisible]
  by_cases h : lookupKind (n :: rest) x = some .func ∨
      lookupKind (n :: rest) x = some .staticm
  · rw [if_pos h, if_pos ((mem_funcNames_iff _ _).mpr h)]
  · rw [if_neg h, if_neg (fun hm => h ((mem_funcNames_iff _ _).mp hm))]

theorem firstPropVisible_cons (n : PyClassNode) (rest : List PyClassNode)
    (x : String) :
    firstPropVisible (n :: rest) x =
      if x ∈ propNames (n :: rest) then some n.name
      else firstPropVisible rest x := by
  rw [firstPropVisible]
  by_cases h : lookupKind (n :: rest) x = some .prop
  · rw [if_pos h, if_pos ((mem_propNames_iff _ _).mpr h)]
  · rw [if_neg h, if_neg (fun hm => h ((mem_propNames_iff _ _).mp hm))]

set_option maxRecDepth 4000 in
/-- Full characterisation of the second pass: a plain (resp. dunder)
name not claimed by the first pass is recorded at — and attributed to —
the head of the first hierarchy suffix from which it is visible as a
function; a property name likewise, under its own processed set. -/
theorem pass2_spec :
    ∀ (chain : List PyClassNode) (st : Pass2State),
      (∀ x, x ∈ (pass2 chain st).processedM ↔
        x ∈ st.processedM ∨ (firstFuncVisible chain x).isSome) ∧
      (∀ x, x ∈ (pass2 chain st).processedP ↔
        x ∈ st.processedP ∨ (firstPropVisible chain x).isSome) ∧
      (∀ x d, (x, d) ∈ (pass2 chain st).methods ↔ (x, d) ∈ st.methods ∨
        (x ∉ st.processedM ∧ isDunder x = false ∧ isPrivate x = false ∧
          firstFuncVisible chain x = some d)) ∧
      (∀ x d, (x, d) ∈ (pass2 chain st).special_methods ↔
        (x, d) ∈ st.special_methods ∨
        (x ∉ st.processedM ∧ isDunder x = true ∧ x ≠ "__init__" ∧
          firstFuncVisible chain x = some d)) ∧
      (∀ x d, (x, d) ∈ (pass2 chain st).properties ↔ (x, d) ∈ st.properties ∨
        (x ∉ st.processedP ∧ firstPropVisible chain x = some d)) := by
  intro chain
  induction chain with
  | nil =>
    intro st
    refine ⟨?_, ?_, ?_, ?_, ?_⟩ <;> intro x <;>
      simp [pass2, firstFuncVisible, firstPropVisible]
  | cons n rest ih =>
    intro st
    obtain ⟨F1, F2, F3, F4, F5⟩ :=
      foldl_classifyFn_spec n.name (funcNames (n :: rest)) st
    obtain ⟨P1, P2, P3, P4, P5⟩ :=
      foldl_classifyProp_spec n.name (propNames (n :: rest))
        ((funcNames (n :: rest)).foldl (classifyFn n.name) st)
    obtain ⟨I1, I2, I3, I4, I5⟩ :=
      ih ((propNames (n :: rest)).foldl (classifyProp n.name)
        ((funcNames (n :: rest)).foldl (classifyFn n.name) st))
    refine ⟨?_, ?_, ?_, ?_, ?_⟩
    · intro x
      rw [pass2, I1, P5, F1, firstFuncVisible_cons]
      by_cases hf : x ∈ funcNames (n :: rest) <;> simp [hf]
    · intro x
      rw [pass2, I2, P1, F5, firstPropVisible_cons]
      by_cases hp : x ∈ propNames (n :: rest) <;> simp [hp]
    · intro x d
      rw [pass2, I3, P3, P5, F1, F2, firstFuncVisible_cons]
      by_cases hf : x ∈ funcNames (n :: rest) <;>
        simp [hf, Option.some.injEq, @eq_comm String d]
    · intro x d
      rw [pass2, I4, P4, P5, F1, F3, firstFuncVisible_cons]
      by_cases hf : x ∈ funcNames (n :: rest) <;>
        simp [hf, Option.some.injEq, @eq_comm String d]
    · intro x d
      rw [pass2, I5, P2, P1, F4, F5, firstPropVisible_cons]
      by_cases hp : x ∈ propNames (n :: rest) <;>
        simp [hp, Option.some.injEq, @eq_comm String d]

theorem analyzeClass_cons (c : PyClassNode) (rest : List PyClassNode) :
    analyzeClass (c :: rest) =
      ⟨c.name,
       (pass2 (c :: rest) ⟨[], [], [], (pass1 (c :: rest) []).2.2, []⟩).methods,
       (pass1 (c :: rest) []).2.1,
       (pass1 (c :: rest) []).1,
       (pass2 (c :: rest) ⟨[], [], [], (pass1 (c :: rest) []).2.2, []⟩).special_methods,
       (pass2 (c :: rest) ⟨[], [], [], (pass1 (c :: rest) []).2.2, []⟩).properties,
       c.name,
       (rest.head?.map PyClassNode.name).toList⟩ := rfl

/-- C2 (amended): in the analysis result, (i) static members are
attributed to the most-derived class declaring them as static in its
own namespace, (ii) class-bound members likewise, (iii) an instance
method is any non-dunder, non-underscore name never declared
static/class-bound anywhere in the chain, attributed to the head of the
FIRST hierarchy suffix from which it is visible as a plain function —
for an inherited method, the analyzed class itself, not the defining
class, (iv) special methods likewise for dunder names, (v) a property
is attributed to the head of the first suffix from which it is visible
as a property — so a name may appear both in a method category and in
properties; and (vi)-(viii) the four method categories are mutually
disjoint. -/
theorem C2_member_attribution (c : PyClassNode) (rest : List PyClassNode) :
    (∀ x d, (x, d) ∈ (analyzeClass (c :: rest)).static_methods ↔
      firstSCDecl (c :: rest) x = some (d, true)) ∧
    (∀ x d, (x, d) ∈ (analyzeClass (c :: rest)).class_methods ↔
      firstSCDecl (c :: rest) x = some (d, false)) ∧
    (∀ x d, (x, d) ∈ (analyzeClass (c :: rest)).methods ↔
      (isDunder x = false ∧ isPrivate x = false ∧
       firstSCDecl (c :: rest) x = Option.none ∧
       firstFuncVisible (c :: rest) x = some d)) ∧
    (∀ x d, (x, d) ∈ (analyzeClass (c :: rest)).special_methods ↔
      (isDunder x = true ∧ x ≠ "__init__" ∧
       firstSCDecl (c :: rest) x = Option.none ∧
       firstFuncVisible (c :: rest) x = some d)) ∧
    (∀ x d, (x, d) ∈ (analyzeClass (c :: rest)).properties ↔
      firstPropVisible (c :: rest) x = some d) ∧
    (∀ x d d', (x, d) ∈ (analyzeClass (c :: rest)).methods →
      ((x, d') ∈ (analyzeClass (c :: rest)).static_methods ∨
       (x, d') ∈ (analyzeClass (c :: rest)).class_methods ∨
       (x, d') ∈ (analyzeClass (c :: rest)).special_methods) → False) ∧
    (∀ x d d', (x, d) ∈ (analyzeClass (c :: rest)).special_methods →
      ((x, d') ∈ (analyzeClass (c :: rest)).static_methods ∨
       (x, d') ∈ (analyzeClass (c :: rest)).class_methods) → False) ∧
    (∀ x d d', (x, d) ∈ (analyzeClass (c :: rest)).static_methods →
      (x, d') ∈ (analyzeClass (c :: rest)).class_methods → False) := by
  obtain ⟨I1, I2, I3, I4, I5⟩ :=
    pass2_spec (c :: rest) ⟨[], [], [], (pass1 (c :: rest) []).2.2, []⟩
  have hs : ∀ x d, (x, d) ∈ (analyzeClass (c :: rest)).static_methods ↔
      firstSCDecl (c :: rest) x = some (d, true) := by
    intro x d
    rw [analyzeClass_cons]
    rw [pass1_statics_mem]
    simp
  have hc : ∀ x d, (x, d) ∈ (analyzeClass (c :: rest)).class_methods ↔
      firstSCDecl (c :: rest) x = some (d, false) := by
    intro x d
    rw [analyzeClass_cons]
    rw [pass1_classms_mem]
    simp
  have hnotp : ∀ x, (x ∉ (pass1 (c :: rest) []).2.2) ↔
      firstSCDecl (c :: rest) x = Option.none := by
    intro x
    rw [pass1_processed_mem]
    simp [Option.isSome_iff_ne_none]
  have hm : ∀ x d, (x, d) ∈ (analyzeClass (c :: rest)).methods ↔
      (isDunder x = false ∧ isPrivate x = false ∧
       firstSCDecl (c :: rest) x = Option.none ∧
       firstFuncVisible (c :: rest) x = some d) := by
    intro x d
    rw [analyzeClass_cons]
    rw [I3 x d]
    dsimp only
    simp only [List.not_mem_nil, false_or, not_false_iff, true_and,
      List.mem_singleton]
    rw [hnotp x]
    tauto
  have hsp : ∀ x d, (x, d) ∈ (analyzeClass (c :: rest)).special_methods ↔
      (isDunder x = true ∧ x ≠ "__init__" ∧
       firstSCDecl (c :: rest) x = Option.none ∧
       firstFuncVisible (c :: rest) x = some d) := by
    intro x d
    rw [analyzeClass_cons]
    rw [I4 x d]
    dsimp only
    simp only [List.not_mem_nil, false_or]
    rw [hnotp x]
    tauto
  have hp : ∀ x d, (x, d) ∈ (analyzeClass (c :: rest)).properties ↔
      firstPropVisible (c :: rest) x = some d := by
    intro x d
    rw [analyzeClass_cons]
    rw [I5 x d]
    dsimp only
    simp
  refine ⟨hs, hc, hm, hsp, hp, ?_, ?_, ?_⟩
  · intro x d d' h1 h2
    have hnone := ((hm x d).mp h1).2.2.1
    rcases h2 with h2 | h2 | h2
    · rw [(hs x d').mp h2] at hnone
      cases hnone
    · rw [(hc x d').mp h2] at hnone
      cases hnone
    · exact absurd ((hm x d).mp h1).1 (by simp [((hsp x d').mp h2).1])
  · intro x d d' h1 h2
    have hnone := ((hsp x d).mp h1).2.2.1
    rcases h2 with h2 | h2
    · rw [(hs x d').mp h2] at hnone
      cases hnone
    · rw [(hc x d').mp h2] at hnone
      cases hnone
  · intro x d d' h1 h2
    have h1' := (hs x d).mp h1
    have h2' := (hc x d').mp h2
    rw [h1'] at h2'
    cases h2'

/-- Witness for C2's amended statement at the counterexample classes:
the inherited `m` is attributed to `D` (the analyzed class), the first
suffix from which it is visible. -/
theorem C2_member_attribution_witness :
    ("m", "D") ∈ (analyzeClass [exD, exB]).methods ↔
      (isDunder "m" = false ∧ isPrivate "m" = false ∧
       firstSCDecl [exD, exB] "m" = Option.none ∧
       firstFuncVisible [exD, exB] "m" = some "D") :=
  (C2_member_attribution exD [exB]).2.2.1 "m" "D"

end TestGen
